import Mathlib

/-!
Verification of the reconciliation/diffing engine of `scripts/mercari-rival-list.py`.

The reconciliation part of `run_once` (lines 246-329) together with the
header-repair step of `get_or_create_worksheet` (lines 117-126) is embedded
shallowly: sheet tables are lists of rows, a row is a list of cell strings,
Python dicts keyed by url are association lists in insertion order, and the
two failure modes of the code (the `SystemExit` raised on a missing snapshot
header, and the `IndexError` reachable through the `r[-1]` access when a url
column index falls back to `-1`) are an `Except` error.  All definitions are
executable.
-/

namespace Mercari

abbrev Row := List String

/-- Python `str.strip()` on the character list of a string: drop whitespace
from the front, then from the back (Lean's `Char.isWhitespace` stands in for
Python's notion of whitespace). -/
def stripChars (cs : List Char) : List Char :=
  ((cs.dropWhile Char.isWhitespace).reverse.dropWhile Char.isWhitespace).reverse

/-- Python `s.strip()` (used at line 104 of the source). -/
def pyStrip (s : String) : String := String.mk (stripChars s.data)

theorem dropWhile_head_not {p : Char → Bool} :
    ∀ (l : List Char) (a : Char), (l.dropWhile p).head? = some a → p a = false := by
  intro l
  induction l with
  | nil => intro a h; simp [List.dropWhile] at h
  | cons x xs ih =>
    intro a h
    by_cases hx : p x
    · rw [List.dropWhile_cons_of_pos hx] at h
      exact ih a h
    · rw [List.dropWhile_cons_of_neg hx] at h
      simp at h
      rw [← h]
      simpa using hx

theorem dropWhile_eq_self_of_head {p : Char → Bool} (l : List Char)
    (h : ∀ a, l.head? = some a → p a = false) : l.dropWhile p = l := by
  cases l with
  | nil => rfl
  | cons x xs =>
    have hx : p x = false := h x rfl
    simp [List.dropWhile, hx]

theorem getLast?_dropWhile {p : Char → Bool} :
    ∀ (l : List Char), l.dropWhile p ≠ [] → (l.dropWhile p).getLast? = l.getLast? := by
  intro l
  induction l with
  | nil => intro h; simp [List.dropWhile] at h
  | cons x xs ih =>
    intro h
    by_cases hx : p x
    · rw [List.dropWhile_cons_of_pos hx] at h ⊢
      have hxs : xs ≠ [] := by
        intro he; rw [he] at h; simp [List.dropWhile] at h
      rw [ih h]
      cases xs with
      | nil => exact absurd rfl hxs
      | cons y ys => rfl
    · rw [List.dropWhile_cons_of_neg hx]

/-- Python `strip` is idempotent. -/
theorem stripChars_idem (cs : List Char) : stripChars (stripChars cs) = stripChars cs := by
  set p := Char.isWhitespace with hp
  set d := cs.dropWhile p with hd
  set t := d.reverse.dropWhile p with ht
  have hs : stripChars cs = t.reverse := rfl
  rcases Decidable.em (t = []) with htn | htn
  · rw [hs, htn]; rfl
  have hhead_t : ∀ a, t.head? = some a → p a = false := fun a ha => dropWhile_head_not _ a ha
  have hlast_t : t.getLast? = d.head? := by
    rw [ht, getLast?_dropWhile _ (by rw [← ht]; exact htn), List.getLast?_reverse]
  have hhead_s : ∀ a, t.reverse.head? = some a → p a = false := by
    intro a ha
    rw [List.head?_reverse, hlast_t] at ha
    exact dropWhile_head_not _ a ha
  have h1 : t.reverse.dropWhile p = t.reverse := dropWhile_eq_self_of_head _ hhead_s
  have h2 : t.reverse.reverse.dropWhile p = t := by
    rw [List.reverse_reverse]
    exact dropWhile_eq_self_of_head _ hhead_t
  show ((t.reverse.dropWhile p).reverse.dropWhile p).reverse = t.reverse
  rw [h1, h2]

theorem pyStrip_idem (s : String) : pyStrip (pyStrip s) = pyStrip s := by
  unfold pyStrip
  exact congrArg String.mk (stripChars_idem s.data)

theorem pyStrip_empty : pyStrip "" = "" := rfl

/-- Association-list lookup, modelling Python `dict[key]` / `key in dict` for
the url-keyed dicts built by `rows_to_dict_by_url`. -/
def alGet : List (String × Row) → String → Option Row
  | [], _ => none
  | (k, v) :: t, u => if k = u then some v else alGet t u

/-- The keys of an association list, in insertion order (Python `dict.keys()`). -/
def keys (d : List (String × Row)) : List String := d.map Prod.fst

theorem alGet_eq_none_iff (d : List (String × Row)) (u : String) :
    alGet d u = none ↔ u ∉ keys d := by
  induction d with
  | nil => simp [alGet, keys]
  | cons kv t ih =>
    obtain ⟨k, v⟩ := kv
    by_cases hk : k = u
    · subst hk
      simp [alGet, keys]
    · have h1 : alGet ((k, v) :: t) u = alGet t u := by simp [alGet, hk]
      have h2 : keys ((k, v) :: t) = k :: keys t := rfl
      rw [h1, h2, ih, List.mem_cons]
      constructor
      · intro h hc
        rcases hc with hc | hc
        · exact hk hc.symm
        · exact h hc
      · intro h hu
        exact h (Or.inr hu)

theorem alGet_isSome_iff (d : List (String × Row)) (u : String) :
    (alGet d u).isSome = true ↔ u ∈ keys d := by
  rw [Option.isSome_iff_ne_none]
  constructor
  · intro h
    by_contra hm
    exact h ((alGet_eq_none_iff d u).mpr hm)
  · intro h hn
    exact ((alGet_eq_none_iff d u).mp hn) h

theorem alGet_append (d e : List (String × Row)) (u : String) :
    alGet (d ++ e) u = match alGet d u with
      | some r => some r
      | none => alGet e u := by
  induction d with
  | nil => simp [alGet]
  | cons kv t ih =>
    obtain ⟨k, v⟩ := kv
    by_cases hk : k = u
    · simp [alGet, hk]
    · simp [alGet, hk, ih]

theorem alGet_mem (d : List (String × Row)) (u : String) (r : Row)
    (h : alGet d u = some r) : (u, r) ∈ d := by
  induction d with
  | nil => simp [alGet] at h
  | cons kv t ih =>
    obtain ⟨k, v⟩ := kv
    by_cases hk : k = u
    · subst hk
      simp [alGet] at h
      simp [h]
    · simp [alGet, hk] at h
      exact List.mem_cons_of_mem _ (ih h)

inductive PyErr where
  | sysExit
  | indexError
deriving Repr, DecidableEq

/-- Python `r[i]` on a list of cells, for a possibly negative index `i`
(negative indices count from the end); `none` models an `IndexError`. -/
def pyCell (r : Row) (i : Int) : Option String :=
  if 0 ≤ i then r.get? i.toNat
  else if 0 ≤ (r.length : Int) + i then r.get? ((r.length : Int) + i).toNat
  else none

/-- Function `rows_to_dict_by_url` (source lines 100-107): walk the rows in order,
skip rows shorter than the url column and rows whose stripped url is empty,
and keep only the first row for each url.  The accumulator is the dict in
insertion order.  A negative `url_idx` (the `-1` fallback of line 267)
indexes from the end as in Python and raises `IndexError` on an empty row. -/
def rows_to_dict_by_url : List Row → Int → List (String × Row) → Except PyErr (List (String × Row))
  | [], _, out => .ok out
  | r :: rs, url_idx, out =>
    if url_idx < (r.length : Int) then
      match pyCell r url_idx with
      | none => .error .indexError
      | some cell =>
        let u := pyStrip cell
        if u ≠ "" ∧ alGet out u = none then
          rows_to_dict_by_url rs url_idx (out ++ [(u, r)])
        else
          rows_to_dict_by_url rs url_idx out
    else rows_to_dict_by_url rs url_idx out

/-- The key that `rows_to_dict_by_url` extracts from one row at a
non-negative url column index: the stripped cell value, provided the row is
long enough and the stripped value is non-empty. -/
def rowKey (i : Nat) (r : Row) : Option String :=
  if i < r.length then
    let u := pyStrip (r.getD i "")
    if u = "" then none else some u
  else none

/-- Total specialisation of `rows_to_dict_by_url` at a non-negative index. -/
def buildNat (i : Nat) : List Row → List (String × Row) → List (String × Row)
  | [], out => out
  | r :: rs, out =>
    match rowKey i r with
    | some u => if alGet out u = none then buildNat i rs (out ++ [(u, r)]) else buildNat i rs out
    | none => buildNat i rs out

theorem get?_eq_some_getD : ∀ (r : Row) (i : Nat), i < r.length → r.get? i = some (r.getD i "")
  | [], i, h => absurd h (by simp)
  | a :: t, 0, _ => rfl
  | a :: t, Nat.succ n, h => get?_eq_some_getD t n (Nat.lt_of_succ_lt_succ h)

theorem rowKey_eq_none_of_short {i : Nat} {r : Row} (hl : ¬ i < r.length) :
    rowKey i r = none := by
  show (if i < r.length then
      (if pyStrip (r.getD i "") = "" then none else some (pyStrip (r.getD i ""))) else none) = none
  rw [if_neg hl]

theorem rowKey_eq_none_of_blank {i : Nat} {r : Row} (hl : i < r.length)
    (hu : pyStrip (r.getD i "") = "") : rowKey i r = none := by
  show (if i < r.length then
      (if pyStrip (r.getD i "") = "" then none else some (pyStrip (r.getD i ""))) else none) = none
  rw [if_pos hl, if_pos hu]

theorem rowKey_eq_some_strip {i : Nat} {r : Row} (hl : i < r.length)
    (hu : pyStrip (r.getD i "") ≠ "") : rowKey i r = some (pyStrip (r.getD i "")) := by
  show (if i < r.length then
      (if pyStrip (r.getD i "") = "" then none else some (pyStrip (r.getD i ""))) else none) = _
  rw [if_pos hl, if_neg hu]

theorem buildNat_cons_none {i : Nat} {r : Row} {rs : List Row} {out : List (String × Row)}
    (h : rowKey i r = none) : buildNat i (r :: rs) out = buildNat i rs out := by
  simp [buildNat, h]

theorem buildNat_cons_new {i : Nat} {r : Row} {rs : List Row} {out : List (String × Row)}
    {u : String} (h : rowKey i r = some u) (ha : alGet out u = none) :
    buildNat i (r :: rs) out = buildNat i rs (out ++ [(u, r)]) := by
  simp [buildNat, h, ha]

theorem buildNat_cons_dup {i : Nat} {r : Row} {rs : List Row} {out : List (String × Row)}
    {u : String} (h : rowKey i r = some u) (ha : ¬ alGet out u = none) :
    buildNat i (r :: rs) out = buildNat i rs out := by
  simp [buildNat, h, ha]

/-- At a non-negative url column index the dict construction never raises. -/
theorem rows_to_dict_nonneg (i : Nat) :
    ∀ (rows : List Row) (out : List (String × Row)),
      rows_to_dict_by_url rows (i : Int) out = .ok (buildNat i rows out) := by
  intro rows
  induction rows with
  | nil => intro out; rfl
  | cons r rs ih =>
    intro out
    by_cases hl : i < r.length
    · have hgl : (i : Int) < (r.length : Int) := by exact_mod_cast hl
      have h0 : (0 : Int) ≤ (i : Int) := Int.ofNat_nonneg i
      have hcell : pyCell r (i : Int) = some (r.getD i "") := by
        unfold pyCell
        rw [if_pos h0, Int.toNat_ofNat]
        exact get?_eq_some_getD r i hl
      by_cases hu : pyStrip (r.getD i "") = ""
      · rw [buildNat_cons_none (rowKey_eq_none_of_blank hl hu)]
        simp only [rows_to_dict_by_url, if_pos hgl, hcell, hu]
        simp only [ne_eq, not_true_eq_false, false_and, if_false]
        exact ih out
      · by_cases ha : alGet out (pyStrip (r.getD i "")) = none
        · rw [buildNat_cons_new (rowKey_eq_some_strip hl hu) ha]
          simp only [rows_to_dict_by_url, if_pos hgl, hcell]
          simp only [ne_eq, hu, not_false_eq_true, ha, and_self, if_true]
          exact ih (out ++ [(pyStrip (r.getD i ""), r)])
        · rw [buildNat_cons_dup (rowKey_eq_some_strip hl hu) ha]
          simp only [rows_to_dict_by_url, if_pos hgl, hcell]
          simp only [ne_eq, ha, and_false, if_false]
          exact ih out
    · have hgl : ¬ ((i : Int) < (r.length : Int)) := by exact_mod_cast hl
      rw [buildNat_cons_none (rowKey_eq_none_of_short hl)]
      simp only [rows_to_dict_by_url, if_neg hgl]
      exact ih out

/-- Lookup in the built dict is lookup of the first row with that key
(first-occurrence-wins). -/
theorem alGet_buildNat (i : Nat) :
    ∀ (rows : List Row) (out : List (String × Row)) (u : String),
      alGet (buildNat i rows out) u =
        match alGet out u with
        | some r => some r
        | none => rows.find? (fun r => decide (rowKey i r = some u)) := by
  intro rows
  induction rows with
  | nil =>
    intro out u
    show alGet out u = _
    cases h : alGet out u with
    | none => rfl
    | some r1 => rfl
  | cons r rs ih =>
    intro out u
    cases hk : rowKey i r with
    | none =>
      have hpred : decide (rowKey i r = some u) = false := by simp [hk]
      rw [buildNat_cons_none hk, ih]
      cases h : alGet out u with
      | some r1 => rfl
      | none => simp [List.find?, hpred]
    | some u0 =>
      by_cases ha : alGet out u0 = none
      · rw [buildNat_cons_new hk ha, ih, alGet_append]
        by_cases huu : u = u0
        · subst huu
          have hpred : decide (rowKey i r = some u) = true := by simp [hk]
          simp [ha, alGet, List.find?, hpred]
        · have hpred : decide (rowKey i r = some u) = false := by
            simp [hk]; exact fun he => huu he.symm
          have hone : alGet [(u0, r)] u = none := by
            simp only [alGet]
            rw [if_neg (fun h => huu h.symm)]
          cases h : alGet out u with
          | some r1 => simp [h]
          | none => simp [h, hone, List.find?, hpred]
      · rw [buildNat_cons_dup hk ha, ih]
        cases h : alGet out u with
        | some r1 => rfl
        | none =>
          have huu : u ≠ u0 := by
            intro he; rw [he] at h; rw [h] at ha; exact ha rfl
          have hpred : decide (rowKey i r = some u) = false := by
            simp [hk]; exact fun he => huu he.symm
          simp [List.find?, hpred]

/-- Lookup in a dict built from the empty accumulator finds the first row
carrying the key. -/
theorem alGet_dict (i : Nat) (rows : List Row) (u : String) :
    alGet (buildNat i rows []) u = rows.find? (fun r => decide (rowKey i r = some u)) := by
  rw [alGet_buildNat]
  rfl

/-- Key membership in the built dict. -/
theorem mem_keys_dict (i : Nat) (rows : List Row) (u : String) :
    u ∈ keys (buildNat i rows []) ↔ ∃ r ∈ rows, rowKey i r = some u := by
  rw [← alGet_isSome_iff, alGet_dict, List.find?_isSome]
  simp

/-- The keys of the built dict carry no duplicates. -/
theorem keys_dict_nodup_aux (i : Nat) :
    ∀ (rows : List Row) (out : List (String × Row)),
      (keys out).Nodup → (keys (buildNat i rows out)).Nodup := by
  intro rows
  induction rows with
  | nil => intro out h; exact h
  | cons r rs ih =>
    intro out h
    cases hk : rowKey i r with
    | none => simp only [buildNat, hk]; exact ih out h
    | some u0 =>
      by_cases ha : alGet out u0 = none
      · simp only [buildNat, hk, if_pos ha]
        apply ih
        have hmem : u0 ∉ keys out := (alGet_eq_none_iff out u0).mp ha
        have hkeys : keys (out ++ [(u0, r)]) = keys out ++ [u0] := by simp [keys]
        rw [hkeys, List.nodup_append]
        refine ⟨h, List.nodup_singleton u0, ?_⟩
        intro x hx hy
        simp at hy
        subst hy
        exact hmem hx
      · simp only [buildNat, hk, if_neg ha]
        exact ih out h

theorem keys_dict_nodup (i : Nat) (rows : List Row) :
    (keys (buildNat i rows [])).Nodup :=
  keys_dict_nodup_aux i rows [] (by simp [keys])

/-- Every entry of the built dict comes from a row of the input whose key is
its dict key. -/
theorem mem_buildNat (i : Nat) :
    ∀ (rows : List Row) (out : List (String × Row)) (u : String) (r : Row),
      (u, r) ∈ buildNat i rows out → (u, r) ∈ out ∨ (r ∈ rows ∧ rowKey i r = some u) := by
  intro rows
  induction rows with
  | nil => intro out u r h; exact Or.inl h
  | cons r0 rs ih =>
    intro out u r h
    cases hk : rowKey i r0 with
    | none =>
      simp only [buildNat, hk] at h
      rcases ih out u r h with h1 | h1
      · exact Or.inl h1
      · exact Or.inr ⟨List.mem_cons_of_mem _ h1.1, h1.2⟩
    | some u0 =>
      by_cases ha : alGet out u0 = none
      · simp only [buildNat, hk, if_pos ha] at h
        rcases ih _ u r h with h1 | h1
        · rcases List.mem_append.mp h1 with h2 | h2
          · exact Or.inl h2
          · simp at h2
            exact Or.inr ⟨by simp [h2.2], by rw [h2.2, hk, h2.1]⟩
        · exact Or.inr ⟨List.mem_cons_of_mem _ h1.1, h1.2⟩
      · simp only [buildNat, hk, if_neg ha] at h
        rcases ih out u r h with h1 | h1
        · exact Or.inl h1
        · exact Or.inr ⟨List.mem_cons_of_mem _ h1.1, h1.2⟩

/-- A key produced by `rowKey` is a non-empty stripped string. -/
theorem rowKey_clean (i : Nat) (r : Row) (u : String) (h : rowKey i r = some u) :
    pyStrip u = u ∧ u ≠ "" := by
  by_cases hl : i < r.length
  · by_cases hu : pyStrip (r.getD i "") = ""
    · rw [rowKey_eq_none_of_blank hl hu] at h
      exact absurd h (by simp)
    · rw [rowKey_eq_some_strip hl hu] at h
      have he := Option.some.inj h
      constructor
      · rw [← he]; exact pyStrip_idem _
      · rw [← he]; exact hu
  · rw [rowKey_eq_none_of_short hl] at h
    exact absurd h (by simp)

/-- Dict keys are non-empty stripped strings. -/
theorem keys_dict_clean (i : Nat) (rows : List Row) (u : String)
    (h : u ∈ keys (buildNat i rows [])) : pyStrip u = u ∧ u ≠ "" := by
  rcases (mem_keys_dict i rows u).mp h with ⟨r, _, hr⟩
  exact rowKey_clean i r u hr

/-- The header rows of the three sheets (source lines 63-67). -/
def TODAY_HEADERS : List String := ["商品名", "価格", "URL"]

def LIST_HEADERS : List String := ["商品名", "価格", "URL", "出品日"]

def SOLD_HEADERS : List String := ["商品名", "価格", "URL", "出品日", "販売日"]

/-- Python `list.index` wrapped in `try`: `some` of the first index of `x`,
`none` when a `ValueError` would be raised (source lines 248-253). -/
def pyIndex (l : List String) (x : String) : Option Nat := l.findIdx? (fun y => y = x)

/-- Function `header_index_map` (source lines 128-130): the dict comprehension
maps each header name to its index, a later duplicate overwriting an earlier
one, so lookup returns the LAST index at which the name occurs. -/
def header_index_map : List String → String → Option Nat
  | [], _ => none
  | h :: t, name =>
    match header_index_map t name with
    | some i => some (i + 1)
    | none => if h = name then some 0 else none

/-- The header-repair step of `get_or_create_worksheet` (source lines
117-125): append, in order, every required header that the current header row
lacks.  A freshly created sheet is the instance with `current = []`. -/
def ensure_headers (current headers : List String) : List String :=
  current ++ headers.filter (fun h => h ∉ current)

theorem header_index_map_isSome_iff (head : List String) (name : String) :
    (header_index_map head name).isSome = true ↔ name ∈ head := by
  induction head with
  | nil => simp [header_index_map]
  | cons h t ih =>
    cases hm : header_index_map t name with
    | some i => simp only [header_index_map, hm, Option.isSome_some, true_iff]
                exact List.mem_cons_of_mem _ ((ih).mp (by rw [hm]; rfl))
    | none =>
      simp only [header_index_map, hm]
      by_cases he : h = name
      · simp [he]
      · rw [if_neg he]
        simp only [Option.isSome_none, Bool.false_eq_true, false_iff]
        intro hc
        rcases List.mem_cons.mp hc with hc | hc
        · exact he hc.symm
        · rw [hm] at ih
          simp at ih
          exact ih hc

theorem header_index_map_getD (head : List String) (name : String) (i : Nat)
    (h : header_index_map head name = some i) : i < head.length ∧ head.getD i "" = name := by
  induction head generalizing i with
  | nil => exact absurd h (by simp [header_index_map])
  | cons x t ih =>
    cases hm : header_index_map t name with
    | some j =>
      rw [header_index_map, hm] at h
      have hij : i = j + 1 := (Option.some.inj h).symm
      subst hij
      obtain ⟨h1, h2⟩ := ih j hm
      exact ⟨Nat.succ_lt_succ h1, h2⟩
    | none =>
      rw [header_index_map, hm] at h
      by_cases he : x = name
      · rw [if_pos he] at h
        have hi0 : i = 0 := (Option.some.inj h).symm
        subst hi0
        exact ⟨Nat.succ_pos _, he⟩
      · rw [if_neg he] at h
        exact absurd h (by simp)

/-- Two different header names never resolve to the same column index. -/
theorem header_index_map_inj (head : List String) (n1 n2 : String) (i : Nat)
    (h1 : header_index_map head n1 = some i) (h2 : header_index_map head n2 = some i) :
    n1 = n2 := by
  have e1 := (header_index_map_getD head n1 i h1).2
  have e2 := (header_index_map_getD head n2 i h2).2
  rw [← e1, ← e2]

theorem mem_ensure_headers_of_mem (current headers : List String) (h : String)
    (hm : h ∈ headers) : h ∈ ensure_headers current headers := by
  unfold ensure_headers
  rw [List.mem_append]
  by_cases hc : h ∈ current
  · exact Or.inl hc
  · exact Or.inr (List.mem_filter.mpr ⟨hm, by simpa using hc⟩)

theorem ensure_headers_eq_self (current headers : List String)
    (h : ∀ x ∈ headers, x ∈ current) : ensure_headers current headers = current := by
  unfold ensure_headers
  rw [List.filter_eq_nil_iff.mpr (by intro a ha; simpa using h a ha), List.append_nil]

/-- Python `r[i] if (i is not None and i < len(r)) else ""` — the guarded positional
read used at source lines 287-288, 300-302 and 314. -/
def readOpt (r : Row) (io : Option Nat) : String :=
  match io with
  | some i => if i < r.length then r.getD i "" else ""
  | none => ""

/-- Python `if i is not None and i < len(row): row[i] = v` — the guarded positional
write used at source lines 290-293 and 304-308. -/
def setIf (row : Row) (io : Option Nat) (v : String) : Row :=
  match io with
  | some i => if i < row.length then row.set i v else row
  | none => row

theorem length_setIf (row : Row) (io : Option Nat) (v : String) :
    (setIf row io v).length = row.length := by
  cases io with
  | none => rfl
  | some i =>
    show (if i < row.length then row.set i v else row).length = _
    by_cases h : i < row.length
    · rw [if_pos h, List.length_set]
    · rw [if_neg h]

theorem getD_set_self : ∀ (l : Row) (i : Nat) (v : String), i < l.length →
    (l.set i v).getD i "" = v
  | [], i, v, h => absurd h (by simp)
  | a :: t, 0, v, _ => rfl
  | a :: t, Nat.succ n, v, h => getD_set_self t n v (Nat.lt_of_succ_lt_succ h)

theorem getD_set_ne : ∀ (l : Row) (i j : Nat) (v : String), i ≠ j →
    (l.set i v).getD j "" = l.getD j ""
  | [], _, _, _, _ => rfl
  | a :: t, 0, 0, v, h => absurd rfl h
  | a :: t, 0, Nat.succ m, v, _ => rfl
  | a :: t, Nat.succ n, 0, v, _ => rfl
  | a :: t, Nat.succ n, Nat.succ m, v, h =>
      getD_set_ne t n m v (fun he => h (congrArg Nat.succ he))

theorem readOpt_setIf_self (row : Row) (i : Nat) (v : String) (h : i < row.length) :
    readOpt (setIf row (some i) v) (some i) = v := by
  show readOpt (if i < row.length then row.set i v else row) (some i) = v
  rw [if_pos h]
  show (if i < (row.set i v).length then (row.set i v).getD i "" else "") = v
  rw [List.length_set, if_pos h]
  exact getD_set_self row i v h

theorem readOpt_setIf_ne (row : Row) (io : Option Nat) (j : Nat) (v : String)
    (h : ∀ i, io = some i → i ≠ j) :
    readOpt (setIf row io v) (some j) = readOpt row (some j) := by
  cases io with
  | none => rfl
  | some i =>
    have hij : i ≠ j := h i rfl
    show readOpt (if i < row.length then row.set i v else row) (some j) = _
    by_cases hl : i < row.length
    · rw [if_pos hl]
      show (if j < (row.set i v).length then (row.set i v).getD j "" else "") = _
      rw [List.length_set]
      by_cases hj : j < row.length
      · rw [if_pos hj, getD_set_ne row i j v hij]
        exact (if_pos hj).symm
      · rw [if_neg hj]
        exact (if_neg hj).symm
    · rw [if_neg hl]

theorem getD_replicate : ∀ (n j : Nat), (List.replicate n ("" : String)).getD j "" = ""
  | 0, _ => rfl
  | Nat.succ n, 0 => rfl
  | Nat.succ n, Nat.succ m => getD_replicate n m

theorem readOpt_replicate (n : Nat) (jo : Option Nat) :
    readOpt (List.replicate n ("" : String)) jo = "" := by
  cases jo with
  | none => rfl
  | some j =>
    show (if j < (List.replicate n ("" : String)).length then _ else "") = ""
    by_cases h : j < (List.replicate n ("" : String)).length
    · rw [if_pos h]; exact getD_replicate n j
    · rw [if_neg h]

/-- The new Active Ledger row built for a newly activated url
(source lines 289-293): a blank row of the ledger header width with the
snapshot name, snapshot price, url and reference date stamped wherever the
respective column exists. -/
def build_list_row (lh : List String) (ln lp lu lo : Option Nat)
    (name price u yd : String) : Row :=
  setIf (setIf (setIf (setIf (List.replicate lh.length "") ln name) lp price) lu u) lo yd

/-- The Sold Archive row built for a newly sold url (source lines 303-308):
a blank row of the archive header width with the ledger name, ledger price,
url, ledger listed date and the reference date as sold date stamped wherever
the respective column exists. -/
def build_sold_row (sh : List String) (sn sp su so ss : Option Nat)
    (name price u outdate yd : String) : Row :=
  setIf (setIf (setIf (setIf (setIf (List.replicate sh.length "") sn name) sp price) su u)
    so outdate) ss yd

/-- Python `sorted` on a list of distinct strings (source lines 280-281). -/
def sortStrings (l : List String) : List String := List.insertionSort (· ≤ ·) l

theorem mem_sortStrings (l : List String) (u : String) : u ∈ sortStrings l ↔ u ∈ l :=
  (List.perm_insertionSort (· ≤ ·) l).mem_iff

theorem sortStrings_nodup (l : List String) (h : l.Nodup) : (sortStrings l).Nodup :=
  ((List.perm_insertionSort (· ≤ ·) l).nodup_iff).mpr h

theorem sortStrings_nil : sortStrings [] = [] := rfl

theorem sortStrings_eq_nil_iff (l : List String) : sortStrings l = [] ↔ l = [] := by
  constructor
  · intro h
    have hp := (List.perm_insertionSort (· ≤ ·) l).length_eq
    rw [show List.insertionSort (· ≤ ·) l = sortStrings l from rfl, h] at hp
    exact List.eq_nil_of_length_eq_zero hp.symm
  · intro h; rw [h]; rfl

/-- The outcome of one reconciliation: the quantities computed at source
lines 255-317, before any write is issued. -/
structure Plan where
  today_by_url : List (String × Row)
  list_by_url : List (String × Row)
  to_add_urls : List String
  to_sold_urls : List String
  rows_to_append_to_list : List Row
  rows_to_append_to_sold : List Row
  remaining_rows : List Row
  list_header : List String
  sold_header : List String
deriving Repr, DecidableEq

/-- The straight-line diff computation of source lines 263-317, given the
two url dicts, the (already read) ledger and archive headers, the snapshot
column indices and the raw ledger rows.  Column indices into the persisted
sheets are resolved by header name and may be absent (`none`). -/
def mkPlan (today_by_url list_by_url : List (String × Row))
    (list_header sold_header : List String) (t_idx_name t_idx_price : Nat)
    (list_rows : List Row) (yesterday_str : String) : Plan :=
  let l_idx_name := header_index_map list_header "商品名"
  let l_idx_price := header_index_map list_header "価格"
  let l_idx_url := header_index_map list_header "URL"
  let l_idx_outdate := header_index_map list_header "出品日"
  let s_idx_name := header_index_map sold_header "商品名"
  let s_idx_price := header_index_map sold_header "価格"
  let s_idx_url := header_index_map sold_header "URL"
  let s_idx_outdate := header_index_map sold_header "出品日"
  let s_idx_sold := header_index_map sold_header "販売日"
  let to_add_urls := sortStrings ((keys today_by_url).filter
    (fun u => decide (u ∉ keys list_by_url)))
  let to_sold_urls := sortStrings ((keys list_by_url).filter
    (fun u => decide (u ∉ keys today_by_url)))
  let rows_to_append_to_list := to_add_urls.map (fun u =>
    let r := (alGet today_by_url u).getD []
    build_list_row list_header l_idx_name l_idx_price l_idx_url l_idx_outdate
      (readOpt r (some t_idx_name)) (readOpt r (some t_idx_price)) u yesterday_str)
  let rows_to_append_to_sold := to_sold_urls.map (fun u =>
    let r := (alGet list_by_url u).getD []
    build_sold_row sold_header s_idx_name s_idx_price s_idx_url s_idx_outdate s_idx_sold
      (readOpt r l_idx_name) (readOpt r l_idx_price) u (readOpt r l_idx_outdate)
      yesterday_str)
  let remaining_rows := list_rows.filter (fun r =>
    decide (¬ (readOpt r l_idx_url ≠ "" ∧ readOpt r l_idx_url ∈ to_sold_urls)))
  ⟨today_by_url, list_by_url, to_add_urls, to_sold_urls,
    rows_to_append_to_list, rows_to_append_to_sold, remaining_rows,
    list_header, sold_header⟩

/-- The reconciliation engine: source lines 246-317 of `run_once`, taking the
headers of the three sheets as read back from the row store together with the
data rows of the snapshot ("today") sheet and of the Active Ledger
(`出品リスト`).  The Sold Archive's data rows are never read.  It fails with
`sysExit` exactly when a snapshot conceptual field cannot be located in the
snapshot header (lines 248-253), and with `indexError` exactly where Python
would raise one (the `-1` url column fallback of line 267 meeting an empty
row). -/
def reconcile_core (today_header : List String) (today_rows_in : List Row)
    (list_header : List String) (list_rows : List Row)
    (sold_header : List String) (yesterday_str : String) : Except PyErr Plan :=
  let today_rows := if today_header.isEmpty then [] else today_rows_in
  match pyIndex today_header "商品名", pyIndex today_header "価格", pyIndex today_header "URL" with
  | some t_idx_name, some t_idx_price, some t_idx_url =>
    (rows_to_dict_by_url today_rows (t_idx_url : Int) []).bind (fun today_by_url =>
      (rows_to_dict_by_url list_rows
          (match header_index_map list_header "URL" with
            | some i => (i : Int)
            | none => -1) []).bind (fun list_by_url =>
        .ok (mkPlan today_by_url list_by_url list_header sold_header
          t_idx_name t_idx_price list_rows yesterday_str)))
  | _, _, _ => .error .sysExit

/-- The full data path of one run against one spreadsheet: the header repair
performed by `get_or_create_worksheet` on the Active Ledger and the Sold
Archive headers (source lines 259 and 271, via lines 117-125), followed by
the reconciliation.  The snapshot sheet is freshly written each run, so its
header is passed through unchanged. -/
def run_sync (today_header : List String) (today_rows : List Row)
    (list_header : List String) (list_rows : List Row)
    (sold_header : List String) (yesterday_str : String) : Except PyErr Plan :=
  reconcile_core today_header today_rows (ensure_headers list_header LIST_HEADERS) list_rows
    (ensure_headers sold_header SOLD_HEADERS) yesterday_str

/-- The rewritten Active Ledger data rows: lines 323-329 clear the sheet,
rewrite the header, write the remaining rows starting at row 2 and append the
newly activated rows after them. -/
def Plan.new_list_rows (p : Plan) : List Row :=
  p.remaining_rows ++ p.rows_to_append_to_list

/-- The `unchanged` url set of the spec (algorithm step 5): urls present in
both the snapshot dict and the ledger dict.  The code never materialises this
set; it is defined here because the claims quantify over it. -/
def Plan.unchanged (p : Plan) : List String :=
  (keys p.today_by_url).filter (fun u => decide (u ∈ keys p.list_by_url))

/-- One write issued against the row store (source lines 319-329). -/
inductive WriteOp where
  | appendSold (rows : List Row)
  | clearList
  | updateListHeader (h : List String)
  | updateListRows (rows : List Row)
  | appendList (rows : List Row)
deriving Repr, DecidableEq

/-- The exact sequence of writes issued by lines 319-329: the sold-archive
append is skipped when there is nothing to append (line 320), the Active
Ledger is cleared, its header rewritten, the remaining rows written from row
2 on when non-empty, and the new rows appended when non-empty. -/
def plan_writes (p : Plan) : List WriteOp :=
  (if p.rows_to_append_to_sold.isEmpty then [] else
    [WriteOp.appendSold p.rows_to_append_to_sold]) ++
  [WriteOp.clearList, WriteOp.updateListHeader p.list_header] ++
  (if p.remaining_rows.isEmpty then [] else [WriteOp.updateListRows p.remaining_rows]) ++
  (if p.rows_to_append_to_list.isEmpty then [] else
    [WriteOp.appendList p.rows_to_append_to_list])

/-- The two persistent sheets' full cell grids, header row included. -/
structure Sheets where
  listT : List Row
  soldT : List Row
deriving Repr, DecidableEq

/-- Overwrite the rows of a grid from row index `start` on, as a rectangular
range update does, padding with empty rows when writing past the end. -/
def writeRowsAt (t : List Row) (start : Nat) (rows : List Row) : List Row :=
  t.take start ++ List.replicate (start - t.length) [] ++ rows ++ t.drop (start + rows.length)

/-- Row-store semantics of each write: `append_rows` adds at the end,
`clear` empties the grid, a range update overwrites in place. -/
def applyOp (s : Sheets) : WriteOp → Sheets
  | WriteOp.appendSold rows => ⟨s.listT, s.soldT ++ rows⟩
  | WriteOp.clearList => ⟨[], s.soldT⟩
  | WriteOp.updateListHeader h => ⟨writeRowsAt s.listT 0 [h], s.soldT⟩
  | WriteOp.updateListRows rows => ⟨writeRowsAt s.listT 1 rows, s.soldT⟩
  | WriteOp.appendList rows => ⟨s.listT ++ rows, s.soldT⟩

/-- Execute the run's writes against the sheet states. -/
def exec_writes (s0 : Sheets) (p : Plan) : Sheets := (plan_writes p).foldl applyOp s0

theorem pyIndex_today_name : pyIndex TODAY_HEADERS "商品名" = some 0 := by decide

theorem pyIndex_today_price : pyIndex TODAY_HEADERS "価格" = some 1 := by decide

theorem pyIndex_today_url : pyIndex TODAY_HEADERS "URL" = some 2 := by decide

/-- A successful engine run is exactly the `mkPlan` of the two dicts, when
the snapshot fields and the ledger url column are all found. -/
theorem reconcile_core_ok_iff (th : List String) (tr : List Row) (lh : List String)
    (lr : List Row) (sh : List String) (yd : String) (tn tp tu iu : Nat) (q : Plan)
    (hn : pyIndex th "商品名" = some tn) (hp : pyIndex th "価格" = some tp)
    (hu : pyIndex th "URL" = some tu)
    (hiu : header_index_map lh "URL" = some iu) :
    reconcile_core th tr lh lr sh yd = .ok q ↔
      q = mkPlan (buildNat tu tr []) (buildNat iu lr []) lh sh tn tp lr yd := by
  have hne : th.isEmpty = false := by
    cases th with
    | nil => exact absurd hn (by simp [pyIndex])
    | cons a t => rfl
  unfold reconcile_core
  simp only [hne, Bool.false_eq_true, if_false, hn, hp, hu, hiu,
    rows_to_dict_nonneg, Except.bind, Except.ok.injEq]
  exact eq_comm

/-- A successful run is exactly the `mkPlan` of the two dicts over the
repaired headers. -/
theorem run_sync_ok_iff (th : List String) (tr : List Row) (lh : List String)
    (lr : List Row) (sh : List String) (yd : String) (tn tp tu iu : Nat) (q : Plan)
    (hn : pyIndex th "商品名" = some tn) (hp : pyIndex th "価格" = some tp)
    (hu : pyIndex th "URL" = some tu)
    (hiu : header_index_map (ensure_headers lh LIST_HEADERS) "URL" = some iu) :
    run_sync th tr lh lr sh yd = .ok q ↔
      q = mkPlan (buildNat tu tr []) (buildNat iu lr [])
            (ensure_headers lh LIST_HEADERS) (ensure_headers sh SOLD_HEADERS) tn tp lr yd := by
  unfold run_sync
  exact reconcile_core_ok_iff th tr (ensure_headers lh LIST_HEADERS) lr
    (ensure_headers sh SOLD_HEADERS) yd tn tp tu iu q hn hp hu hiu

theorem today_isEmpty : (TODAY_HEADERS : List String).isEmpty = false := rfl

section PlanLemmas

variable (td ld : List (String × Row)) (lh sh : List String) (tn tp : Nat)
variable (lr : List Row) (yd : String)

theorem mkPlan_today_by_url : (mkPlan td ld lh sh tn tp lr yd).today_by_url = td := rfl

theorem mkPlan_list_by_url : (mkPlan td ld lh sh tn tp lr yd).list_by_url = ld := rfl

theorem mkPlan_list_header : (mkPlan td ld lh sh tn tp lr yd).list_header = lh := rfl

theorem mkPlan_sold_header : (mkPlan td ld lh sh tn tp lr yd).sold_header = sh := rfl

theorem mkPlan_to_add_urls : (mkPlan td ld lh sh tn tp lr yd).to_add_urls =
    sortStrings ((keys td).filter (fun u => decide (u ∉ keys ld))) := rfl

theorem mkPlan_to_sold_urls : (mkPlan td ld lh sh tn tp lr yd).to_sold_urls =
    sortStrings ((keys ld).filter (fun u => decide (u ∉ keys td))) := rfl

theorem mkPlan_rows_to_append_to_list :
    (mkPlan td ld lh sh tn tp lr yd).rows_to_append_to_list =
      (mkPlan td ld lh sh tn tp lr yd).to_add_urls.map (fun u =>
        build_list_row lh (header_index_map lh "商品名") (header_index_map lh "価格")
          (header_index_map lh "URL") (header_index_map lh "出品日")
          (readOpt ((alGet td u).getD []) (some tn)) (readOpt ((alGet td u).getD []) (some tp))
          u yd) := rfl

theorem mkPlan_rows_to_append_to_sold :
    (mkPlan td ld lh sh tn tp lr yd).rows_to_append_to_sold =
      (mkPlan td ld lh sh tn tp lr yd).to_sold_urls.map (fun u =>
        build_sold_row sh (header_index_map sh "商品名") (header_index_map sh "価格")
          (header_index_map sh "URL") (header_index_map sh "出品日")
          (header_index_map sh "販売日")
          (readOpt ((alGet ld u).getD []) (header_index_map lh "商品名"))
          (readOpt ((alGet ld u).getD []) (header_index_map lh "価格")) u
          (readOpt ((alGet ld u).getD []) (header_index_map lh "出品日")) yd) := rfl

theorem mkPlan_remaining_rows :
    (mkPlan td ld lh sh tn tp lr yd).remaining_rows =
      lr.filter (fun r => decide (¬ (readOpt r (header_index_map lh "URL") ≠ "" ∧
        readOpt r (header_index_map lh "URL") ∈
          (mkPlan td ld lh sh tn tp lr yd).to_sold_urls))) := rfl

theorem mem_mkPlan_to_add (u : String) :
    u ∈ (mkPlan td ld lh sh tn tp lr yd).to_add_urls ↔ u ∈ keys td ∧ u ∉ keys ld := by
  rw [mkPlan_to_add_urls, mem_sortStrings, List.mem_filter]
  simp

theorem mem_mkPlan_to_sold (u : String) :
    u ∈ (mkPlan td ld lh sh tn tp lr yd).to_sold_urls ↔ u ∈ keys ld ∧ u ∉ keys td := by
  rw [mkPlan_to_sold_urls, mem_sortStrings, List.mem_filter]
  simp

theorem mem_mkPlan_unchanged (u : String) :
    u ∈ (mkPlan td ld lh sh tn tp lr yd).unchanged ↔ u ∈ keys td ∧ u ∈ keys ld := by
  unfold Plan.unchanged
  rw [mkPlan_today_by_url, mkPlan_list_by_url, List.mem_filter]
  simp

theorem mem_mkPlan_remaining (r : Row) :
    r ∈ (mkPlan td ld lh sh tn tp lr yd).remaining_rows ↔
      r ∈ lr ∧ ¬ (readOpt r (header_index_map lh "URL") ≠ "" ∧
        readOpt r (header_index_map lh "URL") ∈
          (mkPlan td ld lh sh tn tp lr yd).to_sold_urls) := by
  rw [mkPlan_remaining_rows, List.mem_filter]
  simp only [decide_eq_true_eq]

end PlanLemmas

theorem listURL_found (lh : List String) :
    ∃ iu, header_index_map (ensure_headers lh LIST_HEADERS) "URL" = some iu := by
  have hm : "URL" ∈ ensure_headers lh LIST_HEADERS :=
    mem_ensure_headers_of_mem lh LIST_HEADERS "URL" (by decide)
  exact Option.isSome_iff_exists.mp ((header_index_map_isSome_iff _ "URL").mpr hm)

/-- When all three snapshot fields are found in the snapshot header, the run
returns a plan — no error is possible, whatever the ledger and archive
headers and rows are. -/
theorem run_sync_isOk (th : List String) (tr : List Row) (lh : List String)
    (lr : List Row) (sh : List String) (yd : String) (tn tp tu : Nat)
    (hn : pyIndex th "商品名" = some tn) (hp : pyIndex th "価格" = some tp)
    (hu : pyIndex th "URL" = some tu) :
    (run_sync th tr lh lr sh yd).isOk = true := by
  obtain ⟨iu, hiu⟩ := listURL_found lh
  rw [(run_sync_ok_iff th tr lh lr sh yd tn tp tu iu _ hn hp hu hiu).mpr rfl]
  rfl

/-- When a snapshot field is missing from the snapshot header, the run fails
with the schema error (the `SystemExit` of source lines 248-253). -/
theorem run_sync_err_of_missing (th : List String) (tr : List Row) (lh : List String)
    (lr : List Row) (sh : List String) (yd : String)
    (hmiss : pyIndex th "商品名" = none ∨ pyIndex th "価格" = none ∨ pyIndex th "URL" = none) :
    run_sync th tr lh lr sh yd = .error .sysExit := by
  unfold run_sync reconcile_core
  cases h1 : pyIndex th "商品名" with
  | none => rfl
  | some tn =>
    cases h2 : pyIndex th "価格" with
    | none => rfl
    | some tp =>
      cases h3 : pyIndex th "URL" with
      | none => rfl
      | some tu =>
        rw [h1, h2, h3] at hmiss
        rcases hmiss with h | h | h <;> exact absurd h (by simp)

/-- The resolved Active Ledger column index of a conceptual field, after the
header repair of `get_or_create_worksheet`. -/
def listIdx (lh : List String) (name : String) : Option Nat :=
  header_index_map (ensure_headers lh LIST_HEADERS) name

/-- The resolved Sold Archive column index of a conceptual field, after the
header repair of `get_or_create_worksheet`. -/
def soldIdx (sh : List String) (name : String) : Option Nat :=
  header_index_map (ensure_headers sh SOLD_HEADERS) name

theorem him_ne (head : List String) (n1 n2 : String) (i j : Nat)
    (h1 : header_index_map head n1 = some i) (h2 : header_index_map head n2 = some j)
    (hne : n1 ≠ n2) : i ≠ j :=
  fun he => hne (header_index_map_inj head n1 n2 j (he ▸ h1) h2)

theorem listIdx_found (lh : List String) (name : String) (hm : name ∈ LIST_HEADERS) :
    ∃ i, listIdx lh name = some i :=
  Option.isSome_iff_exists.mp ((header_index_map_isSome_iff _ name).mpr
    (mem_ensure_headers_of_mem lh LIST_HEADERS name hm))

theorem soldIdx_found (sh : List String) (name : String) (hm : name ∈ SOLD_HEADERS) :
    ∃ i, soldIdx sh name = some i :=
  Option.isSome_iff_exists.mp ((header_index_map_isSome_iff _ name).mpr
    (mem_ensure_headers_of_mem sh SOLD_HEADERS name hm))

/-- Reading back the five stamped cells of a freshly built Sold Archive row,
when all five columns exist at pairwise distinct in-range indices. -/
theorem build_sold_row_fields (sh : List String) (a b c d e : Nat)
    (name price u outdate yd : String)
    (hal : a < sh.length) (hbl : b < sh.length) (hcl : c < sh.length)
    (hdl : d < sh.length) (hel : e < sh.length)
    (hab : a ≠ b) (hac : a ≠ c) (had : a ≠ d) (hae : a ≠ e)
    (hbc : b ≠ c) (hbd : b ≠ d) (hbe : b ≠ e)
    (hcd : c ≠ d) (hce : c ≠ e) (hde : d ≠ e) :
    readOpt (build_sold_row sh (some a) (some b) (some c) (some d) (some e)
        name price u outdate yd) (some a) = name ∧
    readOpt (build_sold_row sh (some a) (some b) (some c) (some d) (some e)
        name price u outdate yd) (some b) = price ∧
    readOpt (build_sold_row sh (some a) (some b) (some c) (some d) (some e)
        name price u outdate yd) (some c) = u ∧
    readOpt (build_sold_row sh (some a) (some b) (some c) (some d) (some e)
        name price u outdate yd) (some d) = outdate ∧
    readOpt (build_sold_row sh (some a) (some b) (some c) (some d) (some e)
        name price u outdate yd) (some e) = yd := by
  have L0 : (List.replicate sh.length ("" : String)).length = sh.length :=
    List.length_replicate _ _
  have L1 : (setIf (List.replicate sh.length "") (some a) name).length = sh.length := by
    rw [length_setIf, L0]
  have L2 : (setIf (setIf (List.replicate sh.length "") (some a) name)
      (some b) price).length = sh.length := by rw [length_setIf, L1]
  have L3 : (setIf (setIf (setIf (List.replicate sh.length "") (some a) name)
      (some b) price) (some c) u).length = sh.length := by rw [length_setIf, L2]
  have L4 : (setIf (setIf (setIf (setIf (List.replicate sh.length "") (some a) name)
      (some b) price) (some c) u) (some d) outdate).length = sh.length := by
    rw [length_setIf, L3]
  unfold build_sold_row
  refine ⟨?_, ?_, ?_, ?_, ?_⟩
  · rw [readOpt_setIf_ne _ _ _ _ (fun i hi => by cases hi; exact hae.symm),
      readOpt_setIf_ne _ _ _ _ (fun i hi => by cases hi; exact had.symm),
      readOpt_setIf_ne _ _ _ _ (fun i hi => by cases hi; exact hac.symm),
      readOpt_setIf_ne _ _ _ _ (fun i hi => by cases hi; exact hab.symm)]
    exact readOpt_setIf_self _ a name (by rw [L0]; exact hal)
  · rw [readOpt_setIf_ne _ _ _ _ (fun i hi => by cases hi; exact hbe.symm),
      readOpt_setIf_ne _ _ _ _ (fun i hi => by cases hi; exact hbd.symm),
      readOpt_setIf_ne _ _ _ _ (fun i hi => by cases hi; exact hbc.symm)]
    exact readOpt_setIf_self _ b price (by rw [L1]; exact hbl)
  · rw [readOpt_setIf_ne _ _ _ _ (fun i hi => by cases hi; exact hce.symm),
      readOpt_setIf_ne _ _ _ _ (fun i hi => by cases hi; exact hcd.symm)]
    exact readOpt_setIf_self _ c u (by rw [L2]; exact hcl)
  · rw [readOpt_setIf_ne _ _ _ _ (fun i hi => by cases hi; exact hde.symm)]
    exact readOpt_setIf_self _ d outdate (by rw [L3]; exact hdl)
  · exact readOpt_setIf_self _ e yd (by rw [L4]; exact hel)

/-- Reading back the four stamped cells of a freshly built Active Ledger row,
when all four columns exist at pairwise distinct in-range indices. -/
theorem build_list_row_fields (lh : List String) (a b c d : Nat)
    (name price u yd : String)
    (hal : a < lh.length) (hbl : b < lh.length) (hcl : c < lh.length)
    (hdl : d < lh.length)
    (hab : a ≠ b) (hac : a ≠ c) (had : a ≠ d)
    (hbc : b ≠ c) (hbd : b ≠ d) (hcd : c ≠ d) :
    readOpt (build_list_row lh (some a) (some b) (some c) (some d)
        name price u yd) (some a) = name ∧
    readOpt (build_list_row lh (some a) (some b) (some c) (some d)
        name price u yd) (some b) = price ∧
    readOpt (build_list_row lh (some a) (some b) (some c) (some d)
        name price u yd) (some c) = u ∧
    readOpt (build_list_row lh (some a) (some b) (some c) (some d)
        name price u yd) (some d) = yd := by
  have L0 : (List.replicate lh.length ("" : String)).length = lh.length :=
    List.length_replicate _ _
  have L1 : (setIf (List.replicate lh.length "") (some a) name).length = lh.length := by
    rw [length_setIf, L0]
  have L2 : (setIf (setIf (List.replicate lh.length "") (some a) name)
      (some b) price).length = lh.length := by rw [length_setIf, L1]
  have L3 : (setIf (setIf (setIf (List.replicate lh.length "") (some a) name)
      (some b) price) (some c) u).length = lh.length := by rw [length_setIf, L2]
  unfold build_list_row
  refine ⟨?_, ?_, ?_, ?_⟩
  · rw [readOpt_setIf_ne _ _ _ _ (fun i hi => by cases hi; exact had.symm),
      readOpt_setIf_ne _ _ _ _ (fun i hi => by cases hi; exact hac.symm),
      readOpt_setIf_ne _ _ _ _ (fun i hi => by cases hi; exact hab.symm)]
    exact readOpt_setIf_self _ a name (by rw [L0]; exact hal)
  · rw [readOpt_setIf_ne _ _ _ _ (fun i hi => by cases hi; exact hbd.symm),
      readOpt_setIf_ne _ _ _ _ (fun i hi => by cases hi; exact hbc.symm)]
    exact readOpt_setIf_self _ b price (by rw [L1]; exact hbl)
  · rw [readOpt_setIf_ne _ _ _ _ (fun i hi => by cases hi; exact hcd.symm)]
    exact readOpt_setIf_self _ c u (by rw [L2]; exact hcl)
  · exact readOpt_setIf_self _ d yd (by rw [L3]; exact hdl)

theorem readOpt_some_eq (r : Row) (i : Nat) :
    readOpt r (some i) = if i < r.length then r.getD i "" else "" := rfl

/-- The dict key of a row is exactly the non-empty strip of the guarded url
cell read (the two reads at source lines 104 and 314 look at the same cell
under the same length guard). -/
theorem rowKey_some_iff (i : Nat) (r : Row) (u : String) :
    rowKey i r = some u ↔ pyStrip (readOpt r (some i)) = u ∧ u ≠ "" := by
  by_cases hl : i < r.length
  · have hro : readOpt r (some i) = r.getD i "" := by rw [readOpt_some_eq, if_pos hl]
    rw [hro]
    by_cases hu : pyStrip (r.getD i "") = ""
    · rw [rowKey_eq_none_of_blank hl hu]
      constructor
      · intro h; exact absurd h (by simp)
      · rintro ⟨h1, h2⟩
        rw [h1] at hu
        exact absurd hu h2
    · rw [rowKey_eq_some_strip hl hu]
      constructor
      · intro h
        have he := Option.some.inj h
        exact ⟨he, by rw [← he]; exact hu⟩
      · rintro ⟨h1, h2⟩
        rw [h1]
  · rw [rowKey_eq_none_of_short hl]
    have hro : readOpt r (some i) = "" := by rw [readOpt_some_eq, if_neg hl]
    rw [hro, pyStrip_empty]
    constructor
    · intro h; exact absurd h (by simp)
    · rintro ⟨h1, h2⟩
      exact absurd h1.symm h2

/-! ## Claim theorems -/

/-- Claim C9: reconciliation aborts with the schema error (the `SystemExit`
of source lines 248-253) if and only if at least one of the snapshot's
conceptual fields (商品名, 価格, URL) cannot be located in the snapshot
table's header.  The headers of the Active Ledger and the Sold Archive do not
occur in the condition at all, so missing columns there never trigger this
failure. -/
theorem schema_error_iff (th : List String) (tr : List Row) (lh : List String)
    (lr : List Row) (sh : List String) (yd : String) :
    run_sync th tr lh lr sh yd = .error .sysExit ↔
      (pyIndex th "商品名" = none ∨ pyIndex th "価格" = none ∨ pyIndex th "URL" = none) := by
  constructor
  · intro herr
    by_contra hmiss
    push_neg at hmiss
    obtain ⟨h1, h2, h3⟩ := hmiss
    obtain ⟨tn, hn⟩ := Option.ne_none_iff_exists.mp h1
    obtain ⟨tp, hp⟩ := Option.ne_none_iff_exists.mp h2
    obtain ⟨tu, hu⟩ := Option.ne_none_iff_exists.mp h3
    have hok := run_sync_isOk th tr lh lr sh yd tn tp tu hn.symm hp.symm hu.symm
    rw [herr] at hok
    simp [Except.isOk, Except.toBool] at hok
  · exact run_sync_err_of_missing th tr lh lr sh yd

/-- Claim C7: the Sold Archive is append-only.  Executing a run's writes
leaves the existing archive rows as a prefix, the final archive is exactly
the old rows followed by the newly sold rows, and when there are no newly
sold rows no write touching the archive is issued at all (source lines
320-321). -/
theorem sold_archive_append_only (tr : List Row) (lh : List String) (lr : List Row)
    (sh : List String) (yd : String) (p : Plan) (s0 : Sheets)
    (hrun : run_sync TODAY_HEADERS tr lh lr sh yd = .ok p) :
    (exec_writes s0 p).soldT = s0.soldT ++ p.rows_to_append_to_sold ∧
    List.IsPrefix s0.soldT (exec_writes s0 p).soldT ∧
    (p.rows_to_append_to_sold = [] →
      (∀ rows, WriteOp.appendSold rows ∉ plan_writes p) ∧
      (exec_writes s0 p).soldT = s0.soldT) := by
  have hsold : (exec_writes s0 p).soldT = s0.soldT ++ p.rows_to_append_to_sold := by
    by_cases h1 : p.rows_to_append_to_sold = [] <;>
      by_cases h2 : p.remaining_rows = [] <;>
        by_cases h3 : p.rows_to_append_to_list = [] <;>
          simp [exec_writes, plan_writes, applyOp, List.isEmpty_iff, h1, h2, h3]
  refine ⟨hsold, ?_, ?_⟩
  · rw [hsold]
    exact List.prefix_append _ _
  · intro hemp
    refine ⟨?_, ?_⟩
    · intro rows hmem
      by_cases h2 : p.remaining_rows = [] <;>
        by_cases h3 : p.rows_to_append_to_list = [] <;>
          simp [plan_writes, List.isEmpty_iff, hemp, h2, h3] at hmem
    · rw [hsold, hemp, List.append_nil]

/-- Claim C7 witness: a run with one sold url; the archive gains exactly that
row at the end. -/
def planW7 : Plan :=
  ⟨[("u1", ["N", "P", "u1"])], [("u2", ["M", "Q", "u2", "d1"])], ["u1"], ["u2"],
    [["N", "P", "u1", "2024/05/02"]], [["M", "Q", "u2", "d1", "2024/05/02"]], [],
    LIST_HEADERS, SOLD_HEADERS⟩

theorem sold_archive_append_only_witness :
    run_sync TODAY_HEADERS [["N", "P", "u1"]] LIST_HEADERS [["M", "Q", "u2", "d1"]]
        SOLD_HEADERS "2024/05/02" = .ok planW7 ∧
    (exec_writes ⟨[["x"]], [["old", "row"]]⟩ planW7).soldT =
      [["old", "row"]] ++ [["M", "Q", "u2", "d1", "2024/05/02"]] := by
  have h : run_sync TODAY_HEADERS [["N", "P", "u1"]] LIST_HEADERS [["M", "Q", "u2", "d1"]]
      SOLD_HEADERS "2024/05/02" = .ok planW7 := by rfl
  exact ⟨h, (sold_archive_append_only [["N", "P", "u1"]] LIST_HEADERS
    [["M", "Q", "u2", "d1"]] SOLD_HEADERS "2024/05/02" planW7 ⟨[["x"]], [["old", "row"]]⟩ h).1⟩

/-- Claim C2: the partition property of the diff.  `to_activate` and
`to_deactivate` are disjoint, `to_activate ∪ unchanged` is exactly the url
set of the snapshot dict (first-seen-wins dedup), and
`to_deactivate ∪ unchanged` is exactly the url set of the prior ledger dict. -/
theorem partition_property (tr : List Row) (lh : List String) (lr : List Row)
    (sh : List String) (yd : String) (p : Plan)
    (hrun : run_sync TODAY_HEADERS tr lh lr sh yd = .ok p) :
    (∀ u, ¬ (u ∈ p.to_add_urls ∧ u ∈ p.to_sold_urls)) ∧
    (∀ u, (u ∈ p.to_add_urls ∨ u ∈ p.unchanged) ↔ u ∈ keys p.today_by_url) ∧
    (∀ u, (u ∈ p.to_sold_urls ∨ u ∈ p.unchanged) ↔ u ∈ keys p.list_by_url) := by
  obtain ⟨iu, hiu⟩ := listURL_found lh
  have hq := (run_sync_ok_iff TODAY_HEADERS tr lh lr sh yd 0 1 2 iu p
    pyIndex_today_name pyIndex_today_price pyIndex_today_url hiu).mp hrun
  subst hq
  refine ⟨?_, ?_, ?_⟩
  · intro u
    rw [mem_mkPlan_to_add, mem_mkPlan_to_sold]
    tauto
  · intro u
    rw [mem_mkPlan_to_add, mem_mkPlan_unchanged, mkPlan_today_by_url]
    tauto
  · intro u
    rw [mem_mkPlan_to_sold, mem_mkPlan_unchanged, mkPlan_list_by_url]
    tauto

/-- Claim C2 witness: the concrete run with snapshot url u1 and ledger url
u2. -/
def planW2 : Plan :=
  ⟨[("u1", ["N", "P", "u1"])], [("u2", ["M", "Q", "u2", "d1"])], ["u1"], ["u2"],
    [["N", "P", "u1", "2024/05/02"]], [["M", "Q", "u2", "d1", "2024/05/02"]], [],
    LIST_HEADERS, SOLD_HEADERS⟩

theorem partition_property_witness :
    run_sync TODAY_HEADERS [["N", "P", "u1"]] LIST_HEADERS [["M", "Q", "u2", "d1"]]
        SOLD_HEADERS "2024/05/02" = .ok planW2 ∧
    ¬ ("u1" ∈ planW2.to_add_urls ∧ "u1" ∈ planW2.to_sold_urls) ∧
    (("u1" ∈ planW2.to_add_urls ∨ "u1" ∈ planW2.unchanged) ↔
      "u1" ∈ keys planW2.today_by_url) ∧
    (("u2" ∈ planW2.to_sold_urls ∨ "u2" ∈ planW2.unchanged) ↔
      "u2" ∈ keys planW2.list_by_url) := by
  have h : run_sync TODAY_HEADERS [["N", "P", "u1"]] LIST_HEADERS [["M", "Q", "u2", "d1"]]
      SOLD_HEADERS "2024/05/02" = .ok planW2 := by rfl
  have hc := partition_property [["N", "P", "u1"]] LIST_HEADERS [["M", "Q", "u2", "d1"]]
    SOLD_HEADERS "2024/05/02" planW2 h
  exact ⟨h, hc.1 "u1", hc.2.1 "u1", hc.2.2 "u2"⟩

/-- Claim C3: field carryover on deactivation.  Every url in `to_deactivate`
appears as the url cell of an appended archive row, and any appended archive
row whose url cell resolves to ledger row `r` carries `r`'s name, price and
listed-date cells unchanged, while its sold-date cell is the run's reference
date. -/
theorem sold_field_carryover (tr : List Row) (lh : List String) (lr : List Row)
    (sh : List String) (yd : String) (p : Plan)
    (hrun : run_sync TODAY_HEADERS tr lh lr sh yd = .ok p) :
    (∀ u ∈ p.to_sold_urls, u ∈ p.rows_to_append_to_sold.map
        (fun srow => readOpt srow (soldIdx sh "URL"))) ∧
    (∀ srow ∈ p.rows_to_append_to_sold, ∀ u r,
      readOpt srow (soldIdx sh "URL") = u →
      alGet p.list_by_url u = some r →
      readOpt srow (soldIdx sh "商品名") = readOpt r (listIdx lh "商品名") ∧
      readOpt srow (soldIdx sh "価格") = readOpt r (listIdx lh "価格") ∧
      readOpt srow (soldIdx sh "出品日") = readOpt r (listIdx lh "出品日") ∧
      readOpt srow (soldIdx sh "販売日") = yd) := by
  obtain ⟨iu, hiu⟩ := listURL_found lh
  have hq := (run_sync_ok_iff TODAY_HEADERS tr lh lr sh yd 0 1 2 iu p
    pyIndex_today_name pyIndex_today_price pyIndex_today_url hiu).mp hrun
  subst hq
  simp only [soldIdx, listIdx]
  set td := buildNat 2 tr [] with htd
  set ld := buildNat iu lr [] with hld
  set lh2 := ensure_headers lh LIST_HEADERS with hlh2
  set sh2 := ensure_headers sh SOLD_HEADERS with hsh2
  obtain ⟨a, ha0⟩ := soldIdx_found sh "商品名" (by decide)
  obtain ⟨b, hb0⟩ := soldIdx_found sh "価格" (by decide)
  obtain ⟨c, hc0⟩ := soldIdx_found sh "URL" (by decide)
  obtain ⟨d, hd0⟩ := soldIdx_found sh "出品日" (by decide)
  obtain ⟨e, he0⟩ := soldIdx_found sh "販売日" (by decide)
  have ha : header_index_map sh2 "商品名" = some a := ha0
  have hb : header_index_map sh2 "価格" = some b := hb0
  have hc : header_index_map sh2 "URL" = some c := hc0
  have hd : header_index_map sh2 "出品日" = some d := hd0
  have he : header_index_map sh2 "販売日" = some e := he0
  have hal := (header_index_map_getD sh2 "商品名" a ha).1
  have hbl := (header_index_map_getD sh2 "価格" b hb).1
  have hcl := (header_index_map_getD sh2 "URL" c hc).1
  have hdl := (header_index_map_getD sh2 "出品日" d hd).1
  have hel := (header_index_map_getD sh2 "販売日" e he).1
  have hab := him_ne sh2 "商品名" "価格" a b ha hb (by decide)
  have hac := him_ne sh2 "商品名" "URL" a c ha hc (by decide)
  have had := him_ne sh2 "商品名" "出品日" a d ha hd (by decide)
  have hae := him_ne sh2 "商品名" "販売日" a e ha he (by decide)
  have hbc := him_ne sh2 "価格" "URL" b c hb hc (by decide)
  have hbd := him_ne sh2 "価格" "出品日" b d hb hd (by decide)
  have hbe := him_ne sh2 "価格" "販売日" b e hb he (by decide)
  have hcd := him_ne sh2 "URL" "出品日" c d hc hd (by decide)
  have hce := him_ne sh2 "URL" "販売日" c e hc he (by decide)
  have hde := him_ne sh2 "出品日" "販売日" d e hd he (by decide)
  refine ⟨?_, ?_⟩
  · intro u hu
    rw [mkPlan_rows_to_append_to_sold, hc]
    refine List.mem_map.mpr ⟨_, List.mem_map.mpr ⟨u, hu, rfl⟩, ?_⟩
    rw [ha, hb, hd, he]
    exact (build_sold_row_fields sh2 a b c d e _ _ u _ yd hal hbl hcl hdl hel
      hab hac had hae hbc hbd hbe hcd hce hde).2.2.1
  · intro srow hsrow u r hurl halg
    rw [mkPlan_rows_to_append_to_sold] at hsrow
    obtain ⟨u0, hu0, hseq⟩ := List.mem_map.mp hsrow
    subst hseq
    rw [hc, ha, hb, hd, he] at hurl ⊢
    have hflds := build_sold_row_fields sh2 a b c d e
      (readOpt ((alGet ld u0).getD []) (header_index_map lh2 "商品名"))
      (readOpt ((alGet ld u0).getD []) (header_index_map lh2 "価格")) u0
      (readOpt ((alGet ld u0).getD []) (header_index_map lh2 "出品日")) yd
      hal hbl hcl hdl hel hab hac had hae hbc hbd hbe hcd hce hde
    have huu : u = u0 := by rw [← hurl, hflds.2.2.1]
    rw [huu] at halg
    rw [mkPlan_list_by_url] at halg
    rw [halg]
    simp only [Option.getD_some]
    have hfld1 := build_sold_row_fields sh2 a b c d e
      (readOpt r (header_index_map lh2 "商品名"))
      (readOpt r (header_index_map lh2 "価格")) u0
      (readOpt r (header_index_map lh2 "出品日")) yd
      hal hbl hcl hdl hel hab hac had hae hbc hbd hbe hcd hce hde
    exact ⟨hfld1.1, hfld1.2.1, hfld1.2.2.2.1, hfld1.2.2.2.2⟩

/-- Claim C3 witness: the ledger row of u2 is carried into the archive row
verbatim, with the reference date as sold date. -/
def planW3 : Plan :=
  ⟨[("u1", ["N", "P", "u1"])], [("u2", ["M", "Q", "u2", "d1"])], ["u1"], ["u2"],
    [["N", "P", "u1", "2024/05/02"]], [["M", "Q", "u2", "d1", "2024/05/02"]], [],
    LIST_HEADERS, SOLD_HEADERS⟩

theorem sold_field_carryover_witness :
    run_sync TODAY_HEADERS [["N", "P", "u1"]] LIST_HEADERS [["M", "Q", "u2", "d1"]]
        SOLD_HEADERS "2024/05/02" = .ok planW3 ∧
    "u2" ∈ planW3.rows_to_append_to_sold.map
      (fun srow => readOpt srow (soldIdx SOLD_HEADERS "URL")) ∧
    (readOpt ["M", "Q", "u2", "d1", "2024/05/02"] (soldIdx SOLD_HEADERS "商品名") =
        readOpt ["M", "Q", "u2", "d1"] (listIdx LIST_HEADERS "商品名") ∧
      readOpt ["M", "Q", "u2", "d1", "2024/05/02"] (soldIdx SOLD_HEADERS "価格") =
        readOpt ["M", "Q", "u2", "d1"] (listIdx LIST_HEADERS "価格") ∧
      readOpt ["M", "Q", "u2", "d1", "2024/05/02"] (soldIdx SOLD_HEADERS "出品日") =
        readOpt ["M", "Q", "u2", "d1"] (listIdx LIST_HEADERS "出品日") ∧
      readOpt ["M", "Q", "u2", "d1", "2024/05/02"] (soldIdx SOLD_HEADERS "販売日") =
        "2024/05/02") := by
  have h : run_sync TODAY_HEADERS [["N", "P", "u1"]] LIST_HEADERS [["M", "Q", "u2", "d1"]]
      SOLD_HEADERS "2024/05/02" = .ok planW3 := by rfl
  have hcl := sold_field_carryover [["N", "P", "u1"]] LIST_HEADERS [["M", "Q", "u2", "d1"]]
    SOLD_HEADERS "2024/05/02" planW3 h
  refine ⟨h, hcl.1 "u2" (by decide), ?_⟩
  exact hcl.2 ["M", "Q", "u2", "d1", "2024/05/02"] (by decide) "u2" ["M", "Q", "u2", "d1"]
    (by decide) (by decide)

/-- Claim C5: a url present in the snapshot and absent from the prior ledger
gets a new ledger row whose name and price cells are the snapshot's values for
that url and whose listed-date cell is the run's reference date. -/
theorem new_row_construction (tr : List Row) (lh : List String) (lr : List Row)
    (sh : List String) (yd : String) (p : Plan)
    (hrun : run_sync TODAY_HEADERS tr lh lr sh yd = .ok p) :
    (∀ u ∈ p.to_add_urls, u ∈ p.rows_to_append_to_list.map
        (fun srow => readOpt srow (listIdx lh "URL"))) ∧
    (∀ srow ∈ p.rows_to_append_to_list, ∀ u r,
      readOpt srow (listIdx lh "URL") = u →
      alGet p.today_by_url u = some r →
      readOpt srow (listIdx lh "商品名") = readOpt r (pyIndex TODAY_HEADERS "商品名") ∧
      readOpt srow (listIdx lh "価格") = readOpt r (pyIndex TODAY_HEADERS "価格") ∧
      readOpt srow (listIdx lh "出品日") = yd) := by
  obtain ⟨iu, hiu⟩ := listURL_found lh
  have hq := (run_sync_ok_iff TODAY_HEADERS tr lh lr sh yd 0 1 2 iu p
    pyIndex_today_name pyIndex_today_price pyIndex_today_url hiu).mp hrun
  subst hq
  simp only [listIdx, pyIndex_today_name, pyIndex_today_price]
  set td := buildNat 2 tr [] with htd
  set ld := buildNat iu lr [] with hld
  set lh2 := ensure_headers lh LIST_HEADERS with hlh2
  obtain ⟨a, ha0⟩ := listIdx_found lh "商品名" (by decide)
  obtain ⟨b, hb0⟩ := listIdx_found lh "価格" (by decide)
  obtain ⟨d, hd0⟩ := listIdx_found lh "出品日" (by decide)
  have ha : header_index_map lh2 "商品名" = some a := ha0
  have hb : header_index_map lh2 "価格" = some b := hb0
  have hc : header_index_map lh2 "URL" = some iu := hiu
  have hd : header_index_map lh2 "出品日" = some d := hd0
  have hal := (header_index_map_getD lh2 "商品名" a ha).1
  have hbl := (header_index_map_getD lh2 "価格" b hb).1
  have hcl := (header_index_map_getD lh2 "URL" iu hc).1
  have hdl := (header_index_map_getD lh2 "出品日" d hd).1
  have hab := him_ne lh2 "商品名" "価格" a b ha hb (by decide)
  have hac := him_ne lh2 "商品名" "URL" a iu ha hc (by decide)
  have had := him_ne lh2 "商品名" "出品日" a d ha hd (by decide)
  have hbc := him_ne lh2 "価格" "URL" b iu hb hc (by decide)
  have hbd := him_ne lh2 "価格" "出品日" b d hb hd (by decide)
  have hcd := him_ne lh2 "URL" "出品日" iu d hc hd (by decide)
  refine ⟨?_, ?_⟩
  · intro u hu
    rw [mkPlan_rows_to_append_to_list, hc]
    refine List.mem_map.mpr ⟨_, List.mem_map.mpr ⟨u, hu, rfl⟩, ?_⟩
    rw [ha, hb, hd]
    exact (build_list_row_fields lh2 a b iu d _ _ u yd hal hbl hcl hdl
      hab hac had hbc hbd hcd).2.2.1
  · intro srow hsrow u r hurl halg
    rw [mkPlan_rows_to_append_to_list] at hsrow
    obtain ⟨u0, hu0, hseq⟩ := List.mem_map.mp hsrow
    subst hseq
    rw [hc, ha, hb, hd] at hurl ⊢
    have hflds := build_list_row_fields lh2 a b iu d
      (readOpt ((alGet td u0).getD []) (some 0))
      (readOpt ((alGet td u0).getD []) (some 1)) u0 yd
      hal hbl hcl hdl hab hac had hbc hbd hcd
    have huu : u = u0 := by rw [← hurl, hflds.2.2.1]
    rw [huu] at halg
    rw [mkPlan_today_by_url] at halg
    rw [halg]
    simp only [Option.getD_some]
    have hfld1 := build_list_row_fields lh2 a b iu d
      (readOpt r (some 0)) (readOpt r (some 1)) u0 yd
      hal hbl hcl hdl hab hac had hbc hbd hcd
    exact ⟨hfld1.1, hfld1.2.1, hfld1.2.2.2⟩

/-- Claim C5 witness: the newly activated url u1 gets the snapshot name and
price and the reference date as listed date. -/
def planW5 : Plan :=
  ⟨[("u1", ["N", "P", "u1"])], [("u2", ["M", "Q", "u2", "d1"])], ["u1"], ["u2"],
    [["N", "P", "u1", "2024/05/02"]], [["M", "Q", "u2", "d1", "2024/05/02"]], [],
    LIST_HEADERS, SOLD_HEADERS⟩

theorem new_row_construction_witness :
    run_sync TODAY_HEADERS [["N", "P", "u1"]] LIST_HEADERS [["M", "Q", "u2", "d1"]]
        SOLD_HEADERS "2024/05/02" = .ok planW5 ∧
    "u1" ∈ planW5.rows_to_append_to_list.map
      (fun srow => readOpt srow (listIdx LIST_HEADERS "URL")) ∧
    (readOpt ["N", "P", "u1", "2024/05/02"] (listIdx LIST_HEADERS "商品名") =
        readOpt ["N", "P", "u1"] (pyIndex TODAY_HEADERS "商品名") ∧
      readOpt ["N", "P", "u1", "2024/05/02"] (listIdx LIST_HEADERS "価格") =
        readOpt ["N", "P", "u1"] (pyIndex TODAY_HEADERS "価格") ∧
      readOpt ["N", "P", "u1", "2024/05/02"] (listIdx LIST_HEADERS "出品日") =
        "2024/05/02") := by
  have h : run_sync TODAY_HEADERS [["N", "P", "u1"]] LIST_HEADERS [["M", "Q", "u2", "d1"]]
      SOLD_HEADERS "2024/05/02" = .ok planW5 := by rfl
  have hcl := new_row_construction [["N", "P", "u1"]] LIST_HEADERS [["M", "Q", "u2", "d1"]]
    SOLD_HEADERS "2024/05/02" planW5 h
  refine ⟨h, hcl.1 "u1" (by decide), ?_⟩
  exact hcl.2 ["N", "P", "u1", "2024/05/02"] (by decide) "u1" ["N", "P", "u1"]
    (by decide) (by decide)

/-- Claim C10 (implicit): a prior Active Ledger row whose url cell is empty,
blank, or missing (row too short to reach the url column) is never classified
as sold, contributes no Sold Archive row (it is the source of no archived
url), and is kept in the rewritten Active Ledger. -/
theorem blank_url_rows_retained (tr : List Row) (lh : List String) (lr : List Row)
    (sh : List String) (yd : String) (p : Plan) (r : Row)
    (hrun : run_sync TODAY_HEADERS tr lh lr sh yd = .ok p)
    (hr : r ∈ lr)
    (hblank : pyStrip (readOpt r (listIdx lh "URL")) = "") :
    r ∈ p.remaining_rows ∧ r ∈ p.new_list_rows ∧
    (∀ u ∈ p.to_sold_urls, alGet p.list_by_url u ≠ some r) := by
  obtain ⟨iu, hiu⟩ := listURL_found lh
  have hq := (run_sync_ok_iff TODAY_HEADERS tr lh lr sh yd 0 1 2 iu p
    pyIndex_today_name pyIndex_today_price pyIndex_today_url hiu).mp hrun
  subst hq
  simp only [listIdx] at hblank
  rw [hiu] at hblank
  have hkeep : r ∈ (mkPlan (buildNat 2 tr []) (buildNat iu lr [])
      (ensure_headers lh LIST_HEADERS) (ensure_headers sh SOLD_HEADERS)
      0 1 lr yd).remaining_rows := by
    rw [mem_mkPlan_remaining]
    refine ⟨hr, ?_⟩
    rw [hiu]
    rintro ⟨hne, hmem⟩
    have hsold := (mem_mkPlan_to_sold _ _ _ _ _ _ _ _ _).mp hmem
    have hclean := keys_dict_clean iu lr _ hsold.1
    rw [hblank] at hclean
    exact hclean.2 hclean.1.symm
  refine ⟨hkeep, ?_, ?_⟩
  · exact List.mem_append_left _ hkeep
  · intro u hu halg
    rw [mkPlan_list_by_url, alGet_dict] at halg
    have hpred := List.find?_some halg
    simp only [decide_eq_true_eq] at hpred
    obtain ⟨h1, h2⟩ := (rowKey_some_iff iu r u).mp hpred
    rw [h1] at hblank
    exact h2 hblank

/-- Claim C10 witness: a blank-url row next to a genuinely sold row. -/
def planW10 : Plan :=
  ⟨[], [("u2", ["B", "2", "u2", "d2"])], [], ["u2"], [],
    [["B", "2", "u2", "d2", "2024/05/02"]], [["A", "1", " ", "d1"]],
    LIST_HEADERS, SOLD_HEADERS⟩

theorem blank_url_rows_retained_witness :
    run_sync TODAY_HEADERS [] LIST_HEADERS [["A", "1", " ", "d1"], ["B", "2", "u2", "d2"]]
        SOLD_HEADERS "2024/05/02" = .ok planW10 ∧
    ["A", "1", " ", "d1"] ∈ planW10.remaining_rows ∧
    ["A", "1", " ", "d1"] ∈ planW10.new_list_rows ∧
    alGet planW10.list_by_url "u2" ≠ some ["A", "1", " ", "d1"] := by
  have h : run_sync TODAY_HEADERS []
      LIST_HEADERS [["A", "1", " ", "d1"], ["B", "2", "u2", "d2"]]
      SOLD_HEADERS "2024/05/02" = .ok planW10 := by rfl
  have hc := blank_url_rows_retained [] LIST_HEADERS
    [["A", "1", " ", "d1"], ["B", "2", "u2", "d2"]] SOLD_HEADERS "2024/05/02" planW10
    ["A", "1", " ", "d1"] h (by decide) (by decide)
  exact ⟨h, hc.1, hc.2.1, hc.2.2 "u2" (by decide)⟩

/-- Claim C6 counterexample: with prior ledger `[["A","1","","2024/01/01"]]`
(empty url cell) and an empty snapshot, `unchanged` is empty and nothing is
newly activated, so the claim forces an empty rewritten ledger; the code
keeps the row. -/
def planC6 : Plan :=
  ⟨[], [], [], [], [], [], [["A", "1", "", "2024/01/01"]], LIST_HEADERS, SOLD_HEADERS⟩

theorem ledger_composition_cex :
    run_sync TODAY_HEADERS [] LIST_HEADERS [["A", "1", "", "2024/01/01"]] SOLD_HEADERS
        "2024/05/02" = .ok planC6 ∧
    planC6.unchanged = [] ∧
    planC6.rows_to_append_to_list = [] ∧
    planC6.new_list_rows = [["A", "1", "", "2024/01/01"]] := by
  exact ⟨by rfl, by rfl, rfl, by rfl⟩

/-- Claim C6 (amended): the rewritten Active Ledger is exactly the kept prior
rows followed by the newly activated rows, in that order; a prior row is kept
iff its raw url cell (as read at source line 314) is empty or not in
`to_deactivate`; every row whose stripped url is in `unchanged` is kept —
in particular rows with blank or missing url cells are always retained, which
is the only departure from the claim as stated. -/
theorem ledger_composition (tr : List Row) (lh : List String) (lr : List Row)
    (sh : List String) (yd : String) (p : Plan)
    (hrun : run_sync TODAY_HEADERS tr lh lr sh yd = .ok p) :
    p.new_list_rows = p.remaining_rows ++ p.rows_to_append_to_list ∧
    (∀ r, r ∈ p.remaining_rows ↔ r ∈ lr ∧
      ¬ (readOpt r (listIdx lh "URL") ≠ "" ∧
        readOpt r (listIdx lh "URL") ∈ p.to_sold_urls)) ∧
    (∀ r ∈ lr, pyStrip (readOpt r (listIdx lh "URL")) ∈ p.unchanged →
      r ∈ p.remaining_rows) := by
  obtain ⟨iu, hiu⟩ := listURL_found lh
  have hq := (run_sync_ok_iff TODAY_HEADERS tr lh lr sh yd 0 1 2 iu p
    pyIndex_today_name pyIndex_today_price pyIndex_today_url hiu).mp hrun
  subst hq
  simp only [listIdx]
  refine ⟨rfl, ?_, ?_⟩
  · intro r
    exact mem_mkPlan_remaining _ _ _ _ _ _ _ _ _
  · intro r hr hunch
    rw [hiu] at hunch
    have hu := (mem_mkPlan_unchanged _ _ _ _ _ _ _ _ _).mp hunch
    rw [mem_mkPlan_remaining]
    refine ⟨hr, ?_⟩
    rw [hiu]
    rintro ⟨hne, hmem⟩
    have hsold := (mem_mkPlan_to_sold _ _ _ _ _ _ _ _ _).mp hmem
    have hclean := keys_dict_clean iu lr _ hsold.1
    rw [hclean.1] at hu
    exact hsold.2 hu.1

/-- Claim C6 (amended) witness: an unchanged url u3 next to a sold url u2 and
a new url u1. -/
def planW6 : Plan :=
  ⟨[("u1", ["N", "P", "u1"]), ("u3", ["K", "L", "u3"])],
    [("u2", ["M", "Q", "u2", "d1"]), ("u3", ["R", "S", "u3", "d3"])],
    ["u1"], ["u2"], [["N", "P", "u1", "2024/05/02"]],
    [["M", "Q", "u2", "d1", "2024/05/02"]], [["R", "S", "u3", "d3"]],
    LIST_HEADERS, SOLD_HEADERS⟩

theorem ledger_composition_witness :
    run_sync TODAY_HEADERS [["N", "P", "u1"], ["K", "L", "u3"]] LIST_HEADERS
        [["M", "Q", "u2", "d1"], ["R", "S", "u3", "d3"]] SOLD_HEADERS "2024/05/02" =
      .ok planW6 ∧
    planW6.new_list_rows = planW6.remaining_rows ++ planW6.rows_to_append_to_list ∧
    (["M", "Q", "u2", "d1"] ∈ planW6.remaining_rows ↔
      ["M", "Q", "u2", "d1"] ∈ [["M", "Q", "u2", "d1"], ["R", "S", "u3", "d3"]] ∧
      ¬ (readOpt ["M", "Q", "u2", "d1"] (listIdx LIST_HEADERS "URL") ≠ "" ∧
        readOpt ["M", "Q", "u2", "d1"] (listIdx LIST_HEADERS "URL") ∈
          planW6.to_sold_urls)) ∧
    ["R", "S", "u3", "d3"] ∈ planW6.remaining_rows := by
  have h : run_sync TODAY_HEADERS [["N", "P", "u1"], ["K", "L", "u3"]] LIST_HEADERS
      [["M", "Q", "u2", "d1"], ["R", "S", "u3", "d3"]] SOLD_HEADERS "2024/05/02" =
      .ok planW6 := by rfl
  have hc := ledger_composition [["N", "P", "u1"], ["K", "L", "u3"]] LIST_HEADERS
    [["M", "Q", "u2", "d1"], ["R", "S", "u3", "d3"]] SOLD_HEADERS "2024/05/02" planW6 h
  exact ⟨h, hc.1, hc.2.1 ["M", "Q", "u2", "d1"],
    hc.2.2 ["R", "S", "u3", "d3"] (by decide) (by decide)⟩

/-- Claim C4 counterexample: url u1 occurs twice in the snapshot with prices
¥200 and ¥300, but u1 is already in the prior ledger with price ¥100; the
resulting ledger's only row for u1 keeps ¥100, not the first-encountered
snapshot price ¥200 that the claim asserts. -/
def planC4 : Plan :=
  ⟨[("u1", ["A", "¥200", "u1"])], [("u1", ["Old", "¥100", "u1", "2024/01/01"])],
    [], [], [], [], [["Old", "¥100", "u1", "2024/01/01"]], LIST_HEADERS, SOLD_HEADERS⟩

theorem duplicate_url_cex :
    run_sync TODAY_HEADERS [["A", "¥200", "u1"], ["B", "¥300", "u1"]] LIST_HEADERS
        [["Old", "¥100", "u1", "2024/01/01"]] SOLD_HEADERS "2024/05/02" = .ok planC4 ∧
    planC4.new_list_rows.map (fun r => readOpt r (listIdx LIST_HEADERS "価格")) =
      ["¥100"] ∧
    ("¥100" : String) ≠ "¥200" := by
  exact ⟨by rfl, by rfl, by decide⟩

/-- Claim C4 (amended): duplicate-url resilience holds for urls that are NOT
already in the prior Active Ledger.  If the snapshot's first record carrying
url U is `r0` (first occurrence wins over any later duplicates) and U is
absent from the prior ledger's url set, then the rewritten Active Ledger has
exactly one row whose stripped url cell is U, and any such row's price cell
is `r0`'s price.  (When U is already in the ledger the code keeps the old
ledger row and its old price — the counterexample.) -/
theorem duplicate_url_first_wins (tr : List Row) (lh : List String) (lr : List Row)
    (sh : List String) (yd : String) (p : Plan) (U : String) (r0 : Row)
    (hrun : run_sync TODAY_HEADERS tr lh lr sh yd = .ok p)
    (habs : U ∉ keys p.list_by_url)
    (hfind : tr.find? (fun r => decide (rowKey 2 r = some U)) = some r0) :
    p.new_list_rows.countP
      (fun r => decide (pyStrip (readOpt r (listIdx lh "URL")) = U)) = 1 ∧
    (∀ srow ∈ p.new_list_rows, pyStrip (readOpt srow (listIdx lh "URL")) = U →
      readOpt srow (listIdx lh "価格") = readOpt r0 (pyIndex TODAY_HEADERS "価格")) := by
  obtain ⟨iu, hiu⟩ := listURL_found lh
  have hq := (run_sync_ok_iff TODAY_HEADERS tr lh lr sh yd 0 1 2 iu p
    pyIndex_today_name pyIndex_today_price pyIndex_today_url hiu).mp hrun
  subst hq
  simp only [listIdx, pyIndex_today_price]
  rw [mkPlan_list_by_url] at habs
  set td := buildNat 2 tr [] with htd
  set ld := buildNat iu lr [] with hld
  set lh2 := ensure_headers lh LIST_HEADERS with hlh2
  obtain ⟨a, ha0⟩ := listIdx_found lh "商品名" (by decide)
  obtain ⟨b, hb0⟩ := listIdx_found lh "価格" (by decide)
  obtain ⟨d, hd0⟩ := listIdx_found lh "出品日" (by decide)
  have ha : header_index_map lh2 "商品名" = some a := ha0
  have hb : header_index_map lh2 "価格" = some b := hb0
  have hc : header_index_map lh2 "URL" = some iu := hiu
  have hd : header_index_map lh2 "出品日" = some d := hd0
  have hal := (header_index_map_getD lh2 "商品名" a ha).1
  have hbl := (header_index_map_getD lh2 "価格" b hb).1
  have hcl := (header_index_map_getD lh2 "URL" iu hc).1
  have hdl := (header_index_map_getD lh2 "出品日" d hd).1
  have hab := him_ne lh2 "商品名" "価格" a b ha hb (by decide)
  have hac := him_ne lh2 "商品名" "URL" a iu ha hc (by decide)
  have had := him_ne lh2 "商品名" "出品日" a d ha hd (by decide)
  have hbc := him_ne lh2 "価格" "URL" b iu hb hc (by decide)
  have hbd := him_ne lh2 "価格" "出品日" b d hb hd (by decide)
  have hcd := him_ne lh2 "URL" "出品日" iu d hc hd (by decide)
  have hpredr0 := List.find?_some hfind
  simp only [decide_eq_true_eq] at hpredr0
  have hUtd : U ∈ keys td := (mem_keys_dict 2 tr U).mpr
    ⟨r0, List.mem_of_find?_eq_some hfind, hpredr0⟩
  have hUclean := keys_dict_clean 2 tr U hUtd
  have hUadd : U ∈ (mkPlan td ld lh2 (ensure_headers sh SOLD_HEADERS)
      0 1 lr yd).to_add_urls :=
    (mem_mkPlan_to_add _ _ _ _ _ _ _ _ U).mpr ⟨hUtd, habs⟩
  have halgU : alGet td U = some r0 := by rw [htd, alGet_dict]; exact hfind
  have hurl_read : ∀ u0, readOpt (build_list_row lh2 (some a) (some b) (some iu) (some d)
      (readOpt ((alGet td u0).getD []) (some 0))
      (readOpt ((alGet td u0).getD []) (some 1)) u0 yd) (some iu) = u0 := by
    intro u0
    exact (build_list_row_fields lh2 a b iu d _ _ u0 yd hal hbl hcl hdl
      hab hac had hbc hbd hcd).2.2.1
  have hprice_read : ∀ u0, readOpt (build_list_row lh2 (some a) (some b) (some iu) (some d)
      (readOpt ((alGet td u0).getD []) (some 0))
      (readOpt ((alGet td u0).getD []) (some 1)) u0 yd) (some b) =
      readOpt ((alGet td u0).getD []) (some 1) := by
    intro u0
    exact (build_list_row_fields lh2 a b iu d _ _ u0 yd hal hbl hcl hdl
      hab hac had hbc hbd hcd).2.1
  have hrem_not : ∀ r ∈ (mkPlan td ld lh2 (ensure_headers sh SOLD_HEADERS)
      0 1 lr yd).remaining_rows, ¬ pyStrip (readOpt r (some iu)) = U := by
    intro r hrm heq
    have hr := ((mem_mkPlan_remaining _ _ _ _ _ _ _ _ r).mp hrm).1
    have hkey : rowKey iu r = some U := (rowKey_some_iff iu r U).mpr ⟨heq, hUclean.2⟩
    exact habs ((mem_keys_dict iu lr U).mpr ⟨r, hr, hkey⟩)
  have hnew_eq : (mkPlan td ld lh2 (ensure_headers sh SOLD_HEADERS)
      0 1 lr yd).new_list_rows = (mkPlan td ld lh2 (ensure_headers sh SOLD_HEADERS)
      0 1 lr yd).remaining_rows ++ (mkPlan td ld lh2 (ensure_headers sh SOLD_HEADERS)
      0 1 lr yd).rows_to_append_to_list := rfl
  simp only [hiu]
  constructor
  · rw [hnew_eq, List.countP_append]
    have hzero : (mkPlan td ld lh2 (ensure_headers sh SOLD_HEADERS)
        0 1 lr yd).remaining_rows.countP
        (fun r => decide (pyStrip (readOpt r (some iu)) = U)) = 0 := by
      rw [List.countP_eq_zero]
      intro r hrm
      simp only [decide_eq_true_eq]
      exact hrem_not r hrm
    rw [hzero, Nat.zero_add]
    rw [mkPlan_rows_to_append_to_list, ha, hb, hc, hd, List.countP_map]
    have hcongr : ∀ u0 ∈ (mkPlan td ld lh2 (ensure_headers sh SOLD_HEADERS)
        0 1 lr yd).to_add_urls,
        ((fun r => decide (pyStrip (readOpt r (some iu)) = U)) ∘ (fun u =>
          build_list_row lh2 (some a) (some b) (some iu) (some d)
            (readOpt ((alGet td u).getD []) (some 0))
            (readOpt ((alGet td u).getD []) (some 1)) u yd)) u0 = true ↔
        (u0 == U) = true := by
      intro u0 hu0
      have hmem := ((mem_mkPlan_to_add _ _ _ _ _ _ _ _ u0).mp hu0).1
      have hclean0 := keys_dict_clean 2 tr u0 hmem
      simp only [Function.comp, hurl_read u0, decide_eq_true_eq, beq_iff_eq]
      rw [hclean0.1]
    rw [List.countP_congr hcongr]
    have hcount : (mkPlan td ld lh2 (ensure_headers sh SOLD_HEADERS)
        0 1 lr yd).to_add_urls.Nodup := by
      rw [mkPlan_to_add_urls]
      exact sortStrings_nodup _ (List.Nodup.filter _ (keys_dict_nodup 2 tr))
    exact List.count_eq_one_of_mem hcount hUadd
  · intro srow hs heq
    rw [hnew_eq] at hs
    rcases List.mem_append.mp hs with hs | hs
    · exact absurd heq (hrem_not srow hs)
    · rw [mkPlan_rows_to_append_to_list, ha, hb, hc, hd] at hs
      obtain ⟨u0, hu0, hseq⟩ := List.mem_map.mp hs
      subst hseq
      rw [hurl_read u0] at heq
      have hmem := ((mem_mkPlan_to_add _ _ _ _ _ _ _ _ u0).mp hu0).1
      have hclean0 := keys_dict_clean 2 tr u0 hmem
      rw [hclean0.1] at heq
      rw [hb, hprice_read u0, heq, halgU]
      simp only [Option.getD_some]

/-- Claim C4 (amended) witness: u1 occurs twice in the snapshot with prices
¥200 and ¥300 and is not in the prior ledger; the new ledger has exactly one
u1 row and it carries ¥200. -/
def planW4 : Plan :=
  ⟨[("u1", ["A", "¥200", "u1"])], [("u2", ["M", "Q", "u2", "d1"])], ["u1"], ["u2"],
    [["A", "¥200", "u1", "2024/05/02"]], [["M", "Q", "u2", "d1", "2024/05/02"]], [],
    LIST_HEADERS, SOLD_HEADERS⟩

theorem duplicate_url_first_wins_witness :
    run_sync TODAY_HEADERS [["A", "¥200", "u1"], ["B", "¥300", "u1"]] LIST_HEADERS
        [["M", "Q", "u2", "d1"]] SOLD_HEADERS "2024/05/02" = .ok planW4 ∧
    planW4.new_list_rows.countP
      (fun r => decide (pyStrip (readOpt r (listIdx LIST_HEADERS "URL")) = "u1")) = 1 ∧
    readOpt ["A", "¥200", "u1", "2024/05/02"] (listIdx LIST_HEADERS "価格") =
      readOpt ["A", "¥200", "u1"] (pyIndex TODAY_HEADERS "価格") := by
  have h : run_sync TODAY_HEADERS [["A", "¥200", "u1"], ["B", "¥300", "u1"]] LIST_HEADERS
      [["M", "Q", "u2", "d1"]] SOLD_HEADERS "2024/05/02" = .ok planW4 := by rfl
  have hc := duplicate_url_first_wins [["A", "¥200", "u1"], ["B", "¥300", "u1"]]
    LIST_HEADERS [["M", "Q", "u2", "d1"]] SOLD_HEADERS "2024/05/02" planW4 "u1"
    ["A", "¥200", "u1"] h (by decide) (by decide)
  exact ⟨h, hc.1, hc.2 ["A", "¥200", "u1", "2024/05/02"] (by decide) (by decide)⟩

/-- Claim C8: graceful degradation on missing optional columns.  First, for
every Active Ledger or Sold Archive header — expected columns missing,
reordered or interleaved with extra columns — the run does not fail: the
header repair of `get_or_create_worksheet` appends any missing expected
column, after which every name lookup succeeds.  Second, at the engine level,
when the 出品日 column is genuinely absent from the ledger header, a new
ledger row simply does not get that field stamped: every cell outside the
resolved 商品名/価格/URL columns stays blank, and no error occurs. -/
theorem missing_columns_graceful (lh sh : List String) (tr lr : List Row) (yd : String) :
    (run_sync TODAY_HEADERS tr lh lr sh yd).isOk = true ∧
    (∀ p, header_index_map lh "出品日" = none →
      reconcile_core TODAY_HEADERS tr lh lr sh yd = .ok p →
      ∀ srow ∈ p.rows_to_append_to_list, ∀ j : Nat,
        header_index_map lh "商品名" ≠ some j →
        header_index_map lh "価格" ≠ some j →
        header_index_map lh "URL" ≠ some j →
        readOpt srow (some j) = "") := by
  refine ⟨run_sync_isOk TODAY_HEADERS tr lh lr sh yd 0 1 2
    pyIndex_today_name pyIndex_today_price pyIndex_today_url, ?_⟩
  intro p hout hok srow hsrow j hjn hjp hju
  cases hurl : header_index_map lh "URL" with
  | some iu =>
    have hq := (reconcile_core_ok_iff TODAY_HEADERS tr lh lr sh yd 0 1 2 iu p
      pyIndex_today_name pyIndex_today_price pyIndex_today_url hurl).mp hok
    subst hq
    rw [mkPlan_rows_to_append_to_list] at hsrow
    obtain ⟨u0, hu0, hseq⟩ := List.mem_map.mp hsrow
    subst hseq
    rw [hout, hurl]
    unfold build_list_row
    rw [readOpt_setIf_ne _ _ _ _ (fun i hi => (Option.noConfusion hi : i ≠ j)),
      readOpt_setIf_ne _ _ _ _ (fun i hi he =>
        hju (hurl.trans (congrArg some ((Option.some.inj hi).trans he)))),
      readOpt_setIf_ne _ _ _ _ (fun i hi he => hjp (by rw [← he]; exact hi)),
      readOpt_setIf_ne _ _ _ _ (fun i hi he => hjn (by rw [← he]; exact hi))]
    exact readOpt_replicate _ _
  | none =>
    unfold reconcile_core at hok
    simp only [today_isEmpty, Bool.false_eq_true, if_false, pyIndex_today_name,
      pyIndex_today_price, pyIndex_today_url, hurl, rows_to_dict_nonneg,
      Except.bind] at hok
    cases hld : rows_to_dict_by_url lr (-1) [] with
    | error e => rw [hld] at hok; exact absurd hok (by simp)
    | ok ld0 =>
      rw [hld] at hok
      simp only [Except.bind] at hok
      have hq := (Except.ok.inj hok).symm
      subst hq
      rw [mkPlan_rows_to_append_to_list] at hsrow
      obtain ⟨u0, hu0, hseq⟩ := List.mem_map.mp hsrow
      subst hseq
      rw [hout, hurl]
      unfold build_list_row
      rw [readOpt_setIf_ne _ _ _ _ (fun i hi => (Option.noConfusion hi : i ≠ j)),
        readOpt_setIf_ne _ _ _ _ (fun i hi => (Option.noConfusion hi : i ≠ j)),
        readOpt_setIf_ne _ _ _ _ (fun i hi he => hjp (by rw [← he]; exact hi)),
        readOpt_setIf_ne _ _ _ _ (fun i hi he => hjn (by rw [← he]; exact hi))]
      exact readOpt_replicate _ _

/-- Claim C8 witness: a ledger sheet whose header is just `URL` and an
archive header that is just 販売日; the run still succeeds, and the new
engine-level ledger row for u1 stamps only the url — cell 5 (and every other
non-resolved cell) stays blank. -/
def planC8 : Plan :=
  ⟨[("u1", ["N", "P", "u1"])], [], ["u1"], [], [["u1"]], [], [], ["URL"], ["販売日"]⟩

theorem missing_columns_graceful_witness :
    (run_sync TODAY_HEADERS [["N", "P", "u1"]] ["URL"] [] ["販売日"]
      "2024/05/02").isOk = true ∧
    reconcile_core TODAY_HEADERS [["N", "P", "u1"]] ["URL"] [] ["販売日"]
      "2024/05/02" = .ok planC8 ∧
    readOpt ["u1"] (some 5) = "" := by
  have hc := missing_columns_graceful ["URL"] ["販売日"] [["N", "P", "u1"]] [] "2024/05/02"
  have hok : reconcile_core TODAY_HEADERS [["N", "P", "u1"]] ["URL"] [] ["販売日"]
      "2024/05/02" = .ok planC8 := by rfl
  exact ⟨hc.1, hok, hc.2 planC8 (by rfl) hok ["u1"] (by decide) 5 (by decide) (by decide)
    (by decide)⟩

/-- Claim C1 counterexample: a ledger row whose url cell is padded with
whitespace (` u1 `).  Line 104 strips the cell, so u1 is classified as sold,
but line 314 compares the raw cell against the stripped `to_sold_urls`, so
the row is never removed from the ledger.  A second run over the first run's
ledger output therefore classifies u1 as sold again (`to_deactivate` is not
empty) and appends a second archive row — idempotence fails. -/
def planC1a : Plan :=
  ⟨[], [("u1", ["A", "1", " u1 ", "d"])], [], ["u1"], [],
    [["A", "1", "u1", "d", "2024/05/02"]], [["A", "1", " u1 ", "d"]],
    LIST_HEADERS, SOLD_HEADERS⟩

theorem idempotence_cex :
    run_sync TODAY_HEADERS [] LIST_HEADERS [["A", "1", " u1 ", "d"]] SOLD_HEADERS
        "2024/05/02" = .ok planC1a ∧
    run_sync TODAY_HEADERS [] planC1a.list_header planC1a.new_list_rows SOLD_HEADERS
        "2024/05/02" = .ok planC1a ∧
    planC1a.to_sold_urls = ["u1"] ∧
    planC1a.rows_to_append_to_sold ≠ [] := by
  exact ⟨by rfl, by rfl, rfl, by decide⟩

/-- Claim C1 (amended): idempotence holds for every snapshot and every
initial Active Ledger whose rows' url cells carry no surrounding whitespace
(every row the program itself writes satisfies this, since dict keys are
stripped): rerunning with the same snapshot on the ledger produced by the
first run yields an empty `to_activate`, an empty `to_deactivate`, and
appends nothing to the Sold Archive. -/
theorem reconcile_idempotent (tr : List Row) (lh : List String) (lr : List Row)
    (sh shb : List String) (yd : String) (p1 p2 : Plan)
    (hclean : ∀ r ∈ lr, pyStrip (readOpt r (listIdx lh "URL")) =
      readOpt r (listIdx lh "URL"))
    (h1 : run_sync TODAY_HEADERS tr lh lr sh yd = .ok p1)
    (h2 : run_sync TODAY_HEADERS tr p1.list_header p1.new_list_rows shb yd = .ok p2) :
    p2.to_add_urls = [] ∧ p2.to_sold_urls = [] ∧ p2.rows_to_append_to_sold = [] := by
  obtain ⟨iu, hiu⟩ := listURL_found lh
  have hq1 := (run_sync_ok_iff TODAY_HEADERS tr lh lr sh yd 0 1 2 iu p1
    pyIndex_today_name pyIndex_today_price pyIndex_today_url hiu).mp h1
  subst hq1
  simp only [listIdx] at hclean
  set td := buildNat 2 tr [] with htd
  set ld := buildNat iu lr [] with hld
  set lh2 := ensure_headers lh LIST_HEADERS with hlh2
  set sh2 := ensure_headers sh SOLD_HEADERS with hsh2
  simp only [hiu] at hclean
  obtain ⟨a, ha0⟩ := listIdx_found lh "商品名" (by decide)
  obtain ⟨b, hb0⟩ := listIdx_found lh "価格" (by decide)
  obtain ⟨d, hd0⟩ := listIdx_found lh "出品日" (by decide)
  have ha : header_index_map lh2 "商品名" = some a := ha0
  have hb : header_index_map lh2 "価格" = some b := hb0
  have hd : header_index_map lh2 "出品日" = some d := hd0
  have hal := (header_index_map_getD lh2 "商品名" a ha).1
  have hbl := (header_index_map_getD lh2 "価格" b hb).1
  have hcl := (header_index_map_getD lh2 "URL" iu hiu).1
  have hdl := (header_index_map_getD lh2 "出品日" d hd).1
  have hab := him_ne lh2 "商品名" "価格" a b ha hb (by decide)
  have hac := him_ne lh2 "商品名" "URL" a iu ha hiu (by decide)
  have had := him_ne lh2 "商品名" "出品日" a d ha hd (by decide)
  have hbc := him_ne lh2 "価格" "URL" b iu hb hiu (by decide)
  have hbd := him_ne lh2 "価格" "出品日" b d hb hd (by decide)
  have hcd := him_ne lh2 "URL" "出品日" iu d hiu hd (by decide)
  have hurl_read : ∀ u0, readOpt (build_list_row lh2 (header_index_map lh2 "商品名")
      (header_index_map lh2 "価格") (header_index_map lh2 "URL")
      (header_index_map lh2 "出品日") (readOpt ((alGet td u0).getD []) (some 0))
      (readOpt ((alGet td u0).getD []) (some 1)) u0 yd) (some iu) = u0 := by
    intro u0
    rw [ha, hb, hiu, hd]
    exact (build_list_row_fields lh2 a b iu d _ _ u0 yd hal hbl hcl hdl
      hab hac had hbc hbd hcd).2.2.1
  have hself : ensure_headers lh2 LIST_HEADERS = lh2 :=
    ensure_headers_eq_self lh2 LIST_HEADERS
      (fun x hx => mem_ensure_headers_of_mem lh LIST_HEADERS x hx)
  have hiu2 : header_index_map (ensure_headers lh2 LIST_HEADERS) "URL" = some iu := by
    rw [hself]
    exact hiu
  rw [mkPlan_list_header] at h2
  set nl := (mkPlan td ld lh2 sh2 0 1 lr yd).new_list_rows with hnl
  have hq2 := (run_sync_ok_iff TODAY_HEADERS tr lh2 nl shb yd 0 1 2 iu p2
    pyIndex_today_name pyIndex_today_price pyIndex_today_url hiu2).mp h2
  subst hq2
  have hnl_eq : nl = (mkPlan td ld lh2 sh2 0 1 lr yd).remaining_rows ++
      (mkPlan td ld lh2 sh2 0 1 lr yd).rows_to_append_to_list := rfl
  have hkey : ∀ u, u ∈ keys (buildNat iu nl []) ↔ u ∈ keys td := by
    intro u
    rw [mem_keys_dict]
    constructor
    · rintro ⟨r, hrnl, hrk⟩
      rw [hnl_eq] at hrnl
      rcases List.mem_append.mp hrnl with hrm | hra
      · have hmem := (mem_mkPlan_remaining td ld lh2 sh2 0 1 lr yd r).mp hrm
        rw [hiu] at hmem
        obtain ⟨hrlr, hkeep⟩ := hmem
        obtain ⟨hstrip, hne⟩ := (rowKey_some_iff iu r u).mp hrk
        have hcln := hclean r hrlr
        have hveq : readOpt r (some iu) = u := by rw [← hcln, hstrip]
        have huld : u ∈ keys ld := by
          rw [hld]
          exact (mem_keys_dict iu lr u).mpr ⟨r, hrlr, hrk⟩
        by_contra htd0
        have hsold2 : readOpt r (some iu) ∈
            (mkPlan td ld lh2 sh2 0 1 lr yd).to_sold_urls := by
          rw [hveq]
          exact (mem_mkPlan_to_sold td ld lh2 sh2 0 1 lr yd u).mpr ⟨huld, htd0⟩
        have hne2 : readOpt r (some iu) ≠ "" := by rw [hveq]; exact hne
        exact hkeep ⟨hne2, hsold2⟩
      · rw [mkPlan_rows_to_append_to_list] at hra
        obtain ⟨u0, hu0, hseq⟩ := List.mem_map.mp hra
        have hread : readOpt r (some iu) = u0 := by rw [← hseq]; exact hurl_read u0
        obtain ⟨hstrip, hne⟩ := (rowKey_some_iff iu r u).mp hrk
        have hu0td : u0 ∈ keys td := ((mem_mkPlan_to_add td ld lh2 sh2 0 1 lr yd u0).mp
          hu0).1
        have hcl0 : pyStrip u0 = u0 ∧ u0 ≠ "" := by
          rw [htd] at hu0td
          exact keys_dict_clean 2 tr u0 hu0td
        have huu : u = u0 := by rw [← hstrip, hread, hcl0.1]
        rw [huu]
        rw [htd] at hu0td
        exact hu0td
    · intro hutd
      by_cases huld : u ∈ keys ld
      · rw [hld] at huld
        obtain ⟨r, hrlr, hrk⟩ := (mem_keys_dict iu lr u).mp huld
        refine ⟨r, ?_, hrk⟩
        rw [hnl_eq]
        apply List.mem_append_left
        rw [mem_mkPlan_remaining, hiu]
        refine ⟨hrlr, ?_⟩
        rintro ⟨hvne, hvmem⟩
        obtain ⟨hstrip, hne⟩ := (rowKey_some_iff iu r u).mp hrk
        have hcln := hclean r hrlr
        have hveq : readOpt r (some iu) = u := by rw [← hcln, hstrip]
        rw [hveq] at hvmem
        exact ((mem_mkPlan_to_sold td ld lh2 sh2 0 1 lr yd u).mp hvmem).2 hutd
      · have hu0 : u ∈ (mkPlan td ld lh2 sh2 0 1 lr yd).to_add_urls :=
          (mem_mkPlan_to_add td ld lh2 sh2 0 1 lr yd u).mpr ⟨hutd, huld⟩
        have hcl0 : pyStrip u = u ∧ u ≠ "" := by
          rw [htd] at hutd
          exact keys_dict_clean 2 tr u hutd
        refine ⟨build_list_row lh2 (header_index_map lh2 "商品名")
          (header_index_map lh2 "価格") (header_index_map lh2 "URL")
          (header_index_map lh2 "出品日") (readOpt ((alGet td u).getD []) (some 0))
          (readOpt ((alGet td u).getD []) (some 1)) u yd, ?_, ?_⟩
        · rw [hnl_eq]
          apply List.mem_append_right
          rw [mkPlan_rows_to_append_to_list]
          exact List.mem_map.mpr ⟨u, hu0, rfl⟩
        · apply (rowKey_some_iff iu _ u).mpr
          refine ⟨?_, hcl0.2⟩
          rw [hurl_read u]
          exact hcl0.1
  have hts2 : (mkPlan td (buildNat iu nl []) (ensure_headers lh2 LIST_HEADERS)
      (ensure_headers shb SOLD_HEADERS) 0 1 nl yd).to_sold_urls = [] := by
    rw [mkPlan_to_sold_urls]
    have hfil : (keys (buildNat iu nl [])).filter
        (fun u => decide (u ∉ keys td)) = [] := by
      rw [List.filter_eq_nil_iff]
      intro u hu
      simp only [decide_eq_true_eq, not_not]
      exact (hkey u).mp hu
    rw [hfil, sortStrings_nil]
  refine ⟨?_, hts2, ?_⟩
  · rw [mkPlan_to_add_urls]
    have hfil : (keys td).filter
        (fun u => decide (u ∉ keys (buildNat iu nl []))) = [] := by
      rw [List.filter_eq_nil_iff]
      intro u hu
      simp only [decide_eq_true_eq, not_not]
      exact (hkey u).mpr hu
    rw [hfil, sortStrings_nil]
  · rw [mkPlan_rows_to_append_to_sold, hts2, List.map_nil]

/-- Claim C1 (amended) witness: a clean one-row ledger and the matching
snapshot; the second run classifies nothing. -/
def planW1 : Plan :=
  ⟨[("u1", ["A", "1", "u1"])], [("u1", ["A", "1", "u1", "d"])], [], [], [], [],
    [["A", "1", "u1", "d"]], LIST_HEADERS, SOLD_HEADERS⟩

theorem reconcile_idempotent_witness :
    run_sync TODAY_HEADERS [["A", "1", "u1"]] LIST_HEADERS [["A", "1", "u1", "d"]]
        SOLD_HEADERS "2024/05/02" = .ok planW1 ∧
    run_sync TODAY_HEADERS [["A", "1", "u1"]] planW1.list_header planW1.new_list_rows
        SOLD_HEADERS "2024/05/02" = .ok planW1 ∧
    planW1.to_add_urls = [] ∧ planW1.to_sold_urls = [] ∧
    planW1.rows_to_append_to_sold = [] := by
  have h1 : run_sync TODAY_HEADERS [["A", "1", "u1"]] LIST_HEADERS
      [["A", "1", "u1", "d"]] SOLD_HEADERS "2024/05/02" = .ok planW1 := by rfl
  have h2 : run_sync TODAY_HEADERS [["A", "1", "u1"]] planW1.list_header
      planW1.new_list_rows SOLD_HEADERS "2024/05/02" = .ok planW1 := by rfl
  have hc := reconcile_idempotent [["A", "1", "u1"]] LIST_HEADERS
    [["A", "1", "u1", "d"]] SOLD_HEADERS SOLD_HEADERS "2024/05/02" planW1 planW1
    (by decide) h1 h2
  exact ⟨h1, h2, hc.1, hc.2.1, hc.2.2⟩

end Mercari
